import Mathlib

/-!
A shallow embedding of `src/C++/cache.cpp` (a two-level cache simulator with a
FIFO victim cache and a sequential prefetcher), together with theorems checking
the specification's claims against the embedded code.

Machine integers: `uint64_t` values are modelled as `Nat` reduced modulo
`M = 2 ^ 64` wherever the C++ computation can wrap.  Shifts are modelled as
multiplication / division by a power of two followed by the reduction
(`x << n  ↦  (x * 2 ^ n) % M`, `x >> n  ↦  x / 2 ^ n`); a C++ shift whose
count reaches 64 is undefined behaviour with no single faithful model: `shl`
assigns it the wrap-around value, while `shlMasked` models the shift-count
masking that mainstream hardware (x86 `shl`) and compilers produce at run
time.  Where a claim's truth depends on which resolution is chosen, both are
evaluated side by side.  Bitwise `&`, `|`, `~` are `Nat.land`, `Nat.lor`, and
complement against `M - 1`.
-/

namespace CacheSim

/-- The 64-bit modulus. -/
def M : Nat := 2 ^ 64

/-- `uint64_t` left shift, `x << n`, modelling a shift count ≥ 64 (undefined
behaviour in C++) as the mathematical value reduced modulo `2^64`. -/
def shl (x n : Nat) : Nat := (x * 2 ^ n) % M

/-- `uint64_t` left shift as mainstream builds execute it: the shift count is
masked to its low 6 bits (x86 `shl` semantics), the usual run-time outcome of
the C++-undefined shift counts ≥ 64. -/
def shlMasked (x n : Nat) : Nat := (x * 2 ^ (n % 64)) % M

/-- `uint64_t` right shift, `x >> n`. -/
def shr (x n : Nat) : Nat := x / 2 ^ n

/-- `uint64_t` subtraction with wrap-around, `x - y`. -/
def sub64 (x y : Nat) : Nat := (x % M + (M - y % M)) % M

/-- `uint64_t` addition with wrap-around, `x + y`. -/
def add64 (x y : Nat) : Nat := (x + y) % M

/-- `uint64_t` bitwise complement, `~x` (for `x < M`). -/
def compl64 (x : Nat) : Nat := M - 1 - x % M

/-- `clog2` from `cache.cpp`: number of bits needed to represent `num`,
`ceil(log2 num)`.  (The C++ computes it through `double`; for the `uint64_t`
arguments arising here the two agree.  `clog2 0` is undefined behaviour in the
C++ — `log2(0) = -inf` cast to `uint64_t`.) -/
def clog2 (num : Nat) : Nat := Nat.clog 2 num

/-- `CacheEntry`: address, dirty flag, geometry `(c, b, s)`, plus the `blank`
and `prefetched` flags.  The C++ default member initializers set
`blank = false`, `prefetched = false`. -/
structure CacheEntry where
  addr : Nat
  dirty : Bool
  c : Nat
  b : Nat
  s : Nat
  blank : Bool
  prefetched : Bool
deriving DecidableEq, Repr

namespace CacheEntry

/-- `ADDR_WIDTH`. -/
def ADDR_WIDTH : Nat := 64

/-- The default constructor `CacheEntry()`: produces a blank entry.  `addr`,
`dirty`, `c`, `b`, `s` are left indeterminate in the C++; the model fixes them
to `0` / `false` (no claim observes them on a blank entry). -/
def blankEntry : CacheEntry :=
  { addr := 0, dirty := false, c := 0, b := 0, s := 0, blank := true, prefetched := false }

/-- The parameterised constructor `CacheEntry(addr, dirty, c, b, s)`. -/
def init (addr : Nat) (dirty : Bool) (c b s : Nat) : CacheEntry :=
  { addr := addr, dirty := dirty, c := c, b := b, s := s, blank := false, prefetched := false }

/-- The copy constructor `CacheEntry(const CacheEntry&)`: copies `addr`,
`dirty`, `c`, `b`, `s` only; `blank` and `prefetched` are *not* copied and
fall back to their default member initializers (`false`). -/
def copyCtor (alt : CacheEntry) : CacheEntry :=
  { addr := alt.addr, dirty := alt.dirty, c := alt.c, b := alt.b, s := alt.s,
    blank := false, prefetched := false }

/-- `tagSize() = ADDR_WIDTH - c + s` in `uint64_t` arithmetic. -/
def tagSize (e : CacheEntry) : Nat := add64 (sub64 ADDR_WIDTH e.c) e.s

/-- `byteOffsetSize() = b`. -/
def byteOffsetSize (e : CacheEntry) : Nat := e.b

/-- `indexSize() = c - s - b` in `uint64_t` arithmetic. -/
def indexSize (e : CacheEntry) : Nat := sub64 (sub64 e.c e.s) e.b

/-- `shiftAndMask(val, bitCount, shiftAmount) =
(val >> shiftAmount) & ((2UL << bitCount) - 1UL)`. -/
def shiftAndMask (val bitCount shiftAmount : Nat) : Nat :=
  Nat.land (shr val shiftAmount) (sub64 (shl 2 bitCount) 1)

/-- `getTag()`. -/
def getTag (e : CacheEntry) : Nat :=
  shiftAndMask e.addr e.tagSize (add64 e.indexSize e.byteOffsetSize)

/-- `getIndex()`. -/
def getIndex (e : CacheEntry) : Nat :=
  shiftAndMask e.addr e.indexSize e.byteOffsetSize

/-- `getByteOffset()`. -/
def getByteOffset (e : CacheEntry) : Nat :=
  shiftAndMask e.addr e.byteOffsetSize 0

/-- `getBlockAddress()`. -/
def getBlockAddress (e : CacheEntry) : Nat :=
  shiftAndMask e.addr (add64 e.indexSize e.tagSize) e.byteOffsetSize

/-- `setDirty`. -/
def setDirty (e : CacheEntry) (d : Bool) : CacheEntry := { e with dirty := d }

/-- `setPrefetched`. -/
def setPrefetched (e : CacheEntry) (p : Bool) : CacheEntry := { e with prefetched := p }

/-- `setBlockAddress(blockAddress_i)`:
```
uint64_t blockAddressMask = ((1UL<<(ADDR_WIDTH - b)) - 1UL) << b;
addr &= ~blockAddressMask;
addr |= blockAddress_i << b;
```
For `1 ≤ b ≤ 63` every shift is defined and this model is exact.  At `b = 0`
the C++ computes `1UL << 64` — undefined behaviour — and at `b ≥ 64` the
shifts by `b` are undefined too; this version resolves those shifts by
wrap-around (`shl`), `setBlockAddressMasked` below by shift-count masking. -/
def setBlockAddress (e : CacheEntry) (blockAddress_i : Nat) : CacheEntry :=
  let blockAddressMask := shl (sub64 (shl 1 (sub64 ADDR_WIDTH e.b)) 1) e.b
  let addr1 := Nat.land e.addr (compl64 blockAddressMask)
  { e with addr := Nat.lor addr1 (shl blockAddress_i e.b) }

/-- `setBlockAddress` under the other resolution of the undefined shifts:
every `<<` executes with its count masked to 6 bits (`shlMasked`), which is
what mainstream compilers and x86 hardware actually do at run time.  For
`1 ≤ b ≤ 63` it agrees with `setBlockAddress`; at `b = 0` the mask becomes
`((1 << 0) - 1) << 0 = 0`, so the old address is left in place and the new
block address is OR-merged into it. -/
def setBlockAddressMasked (e : CacheEntry) (blockAddress_i : Nat) : CacheEntry :=
  let blockAddressMask := shlMasked (sub64 (shlMasked 1 (sub64 ADDR_WIDTH e.b)) 1) e.b
  let addr1 := Nat.land e.addr (compl64 blockAddressMask)
  { e with addr := Nat.lor addr1 (shlMasked blockAddress_i e.b) }

end CacheEntry

/-- The tag-equality predicate used by `std::find(set.begin(), set.end(), tag)`
through `CacheEntry::operator==(const uint64_t&)`. -/
def tagMatch (tag : Nat) (x : CacheEntry) : Bool := x.getTag == tag

/-- `LruSet` (also carrying the data of its base `CacheSet`): `ways = 1 << s`,
geometry, and the `std::list` of entries.  The list head is the MRU end
(`push_front`), the last element the LRU end (`back`). -/
structure LruSet where
  ways : Nat
  c : Nat
  b : Nat
  s : Nat
  set : List CacheEntry
deriving DecidableEq, Repr

namespace LruSet

/-- The constructor `LruSet(c, b, s)` (via `CacheSet(c, b, s)`): `ways = 1UL << s`,
empty list. -/
def new (c b s : Nat) : LruSet := { ways := shl 1 s, c := c, b := b, s := s, set := [] }

/-- `CacheSet::contains(tag)`. -/
def containsTag (st : LruSet) (tag : Nat) : Bool := st.set.any (tagMatch tag)

/-- `CacheSet::seek(tag)`: first matching entry (returned by value, hence
through the copy constructor), blank if none; the list is not modified. -/
def seek (st : LruSet) (tag : Nat) : CacheEntry :=
  match st.set.find? (tagMatch tag) with
  | none => CacheEntry.blankEntry
  | some f => CacheEntry.copyCtor f

/-- `CacheSet::retrieve(tag)`: copy the first matching entry, remove every
entry with that tag (`std::list::remove` erases all tag-equal elements), and
return the copy; blank and unchanged if no match. -/
def retrieve (st : LruSet) (tag : Nat) : CacheEntry × LruSet :=
  match st.set.find? (tagMatch tag) with
  | none => (CacheEntry.blankEntry, st)
  | some f =>
      (CacheEntry.copyCtor f,
       { st with set := st.set.filter (fun x => !(x.getTag == f.getTag)) })

/-- `LruSet::insertLru(entry)`: the argument is passed by value (copy
constructor).  Under capacity, `push_back`; otherwise evict `back()`
(`pop_back`) and `push_back` the new entry.  The evicted entry is returned
through `CacheEntry lru = this->set.back();` — a copy construction, so the
returned value has `blank`/`prefetched` reset to `false`.  The `else` branch
with an empty list (`ways = 0`) is undefined behaviour in the C++ (`back()`
on an empty list); the model returns blank and leaves the set unchanged
there. -/
def insertLru (st : LruSet) (entry : CacheEntry) : CacheEntry × LruSet :=
  let e := CacheEntry.copyCtor entry
  if st.set.length < st.ways then
    (CacheEntry.blankEntry, { st with set := st.set ++ [e] })
  else
    match st.set.getLast? with
    | none => (CacheEntry.blankEntry, st)
    | some lru => (CacheEntry.copyCtor lru, { st with set := st.set.dropLast ++ [e] })

/-- `LruSet::inserMru(entry)`: as `insertLru` but the new entry is
`push_front`ed (MRU position); the evicted entry is likewise returned through
a copy construction (`CacheEntry lru = this->set.back();`). -/
def inserMru (st : LruSet) (entry : CacheEntry) : CacheEntry × LruSet :=
  let e := CacheEntry.copyCtor entry
  if st.set.length < st.ways then
    (CacheEntry.blankEntry, { st with set := e :: st.set })
  else
    match st.set.getLast? with
    | none => (CacheEntry.blankEntry, st)
    | some lru => (CacheEntry.copyCtor lru, { st with set := e :: st.set.dropLast })

/-- `LruSet::read(tag)`: on a miss, blank and no mutation; on a hit, copy the
first match (`CacheEntry newMru = *foundEntryIt`), `remove` all tag-equal
entries, `push_front` the copy. -/
def read (st : LruSet) (tag : Nat) : CacheEntry × LruSet :=
  match st.set.find? (tagMatch tag) with
  | none => (CacheEntry.blankEntry, st)
  | some f =>
      let newMru := CacheEntry.copyCtor f
      (newMru,
       { st with set := newMru :: st.set.filter (fun x => !(x.getTag == newMru.getTag)) })

/-- `LruSet::writeBack(tag)`: as `read`, but the found element is first marked
dirty in place (`foundEntryIt->setDirty(true)`) before being copied and
promoted. -/
def writeBack (st : LruSet) (tag : Nat) : CacheEntry × LruSet :=
  match st.set.find? (tagMatch tag) with
  | none => (CacheEntry.blankEntry, st)
  | some f =>
      let fd := { f with dirty := true }
      let newMru := CacheEntry.copyCtor fd
      (newMru,
       { st with set := newMru :: st.set.filter (fun x => !(x.getTag == newMru.getTag)) })

end LruSet

/-- `VictimSet`: a fully associative FIFO set.  The constructor
`VictimSet(v, b)` builds the base `CacheSet(clog2(v) + b, b, clog2(v))`, so
`ways = 1UL << clog2(v)`, and stores `v` (which is never used for capacity
decisions). -/
structure VictimSet where
  ways : Nat
  c : Nat
  b : Nat
  s : Nat
  v : Nat
  set : List CacheEntry
deriving DecidableEq, Repr

namespace VictimSet

/-- `VictimSet(v, b)` / `VictimSet::init(v, b)`. -/
def new (v b : Nat) : VictimSet :=
  { ways := shl 1 (clog2 v), c := clog2 v + b, b := b, s := clog2 v, v := v, set := [] }

/-- `CacheSet::contains(tag)` on a victim set. -/
def containsTag (st : VictimSet) (tag : Nat) : Bool := st.set.any (tagMatch tag)

/-- `CacheSet::seek(tag)` on a victim set. -/
def seek (st : VictimSet) (tag : Nat) : CacheEntry :=
  match st.set.find? (tagMatch tag) with
  | none => CacheEntry.blankEntry
  | some f => CacheEntry.copyCtor f

/-- `CacheSet::retrieve(tag)` on a victim set. -/
def retrieve (st : VictimSet) (tag : Nat) : CacheEntry × VictimSet :=
  match st.set.find? (tagMatch tag) with
  | none => (CacheEntry.blankEntry, st)
  | some f =>
      (CacheEntry.copyCtor f,
       { st with set := st.set.filter (fun x => !(x.getTag == f.getTag)) })

/-- `VictimSet::insert(entry)` (argument by value): under capacity,
`push_front`; otherwise evict `back()` (the oldest-inserted entry) and
`push_front` the new one.  The evicted entry is returned through
`CacheEntry fifo = this->set.back();` — a copy construction resetting
`blank`/`prefetched`.  As for `insertLru`, a full empty set is C++ undefined
behaviour, modelled as a no-op returning blank. -/
def insert (st : VictimSet) (entry : CacheEntry) : CacheEntry × VictimSet :=
  let e := CacheEntry.copyCtor entry
  if st.set.length < st.ways then
    (CacheEntry.blankEntry, { st with set := e :: st.set })
  else
    match st.set.getLast? with
    | none => (CacheEntry.blankEntry, st)
    | some fifo => (CacheEntry.copyCtor fifo, { st with set := e :: st.set.dropLast })

end VictimSet

/-- `Prefetcher` state: the prefetch depth `k`, the geometry `(c, b, s)` of
the cache prefetched into, and the evictions buffer.  The referenced L2
vector is passed explicitly to the operations. -/
structure Prefetcher where
  k : Nat
  c : Nat
  b : Nat
  s : Nat
  evictions : List CacheEntry
deriving DecidableEq, Repr

namespace Prefetcher

/-- The loop body of `Prefetcher::prefetch`, iterated `n` more times:
increment the running block address, `setBlockAddress` on the running entry,
select the set `prefCache.at(tmp_entry.getIndex())` (`none` models the
`std::out_of_range` exception thrown by `at`), and insert through
`insertLru` unless the set already `contains` the tag, appending any
non-blank eviction to the buffer. -/
def prefetchLoop : Nat → CacheEntry → Nat → List LruSet → List CacheEntry →
    Option (List CacheEntry × List LruSet)
  | 0, _, _, cache, evs => some (evs, cache)
  | n + 1, tmp, blockAddr, cache, evs =>
      let blockAddr' := add64 blockAddr 1
      let tmp' := tmp.setBlockAddress blockAddr'
      match cache.get? tmp'.getIndex with
      | none => none
      | some prefEntrySet =>
          if prefEntrySet.containsTag tmp'.getTag then
            prefetchLoop n tmp' blockAddr' cache evs
          else
            let res := prefEntrySet.insertLru tmp'
            let cache' := cache.set tmp'.getIndex res.2
            let evs' := if res.1.blank then evs else evs ++ [res.1]
            prefetchLoop n tmp' blockAddr' cache' evs'

/-- `Prefetcher::prefetch(startEntry)`: clear the evictions buffer, make a
local copy of the trigger entry (copy constructor), force `dirty = false` and
`prefetched = true` on it, and run the loop for `k` iterations starting from
`startEntry.getBlockAddress()`.  Returns `none` when the C++ would throw
`std::out_of_range` from `prefCache.at`. -/
def prefetch (pf : Prefetcher) (prefCache : List LruSet) (startEntry : CacheEntry) :
    Option (Prefetcher × List LruSet) :=
  let tmp := ((CacheEntry.copyCtor startEntry).setDirty false).setPrefetched true
  (prefetchLoop pf.k tmp startEntry.getBlockAddress prefCache []).map
    (fun r => ({ pf with evictions := r.1 }, r.2))

/-- `Prefetcher::popEviction()`: `CacheEntry eviction = evictions.front();
evictions.pop_front();` — the returned entry is copy-constructed from the
buffer's front (resetting `blank`/`prefetched`).  On an empty buffer both
calls are undefined behaviour in C++ (`std::list::front` / `pop_front` on an
empty list); the model returns `none` there, `some` of the copied front
entry and the remaining buffer otherwise. -/
def popEviction (pf : Prefetcher) : Option (CacheEntry × Prefetcher) :=
  match pf.evictions with
  | [] => none
  | e :: rest => some (CacheEntry.copyCtor e, { pf with evictions := rest })

/-- `Prefetcher::checkEmpty()`. -/
def checkEmpty (pf : Prefetcher) : Bool := pf.evictions.isEmpty

end Prefetcher

/-- The operations of claim C5's sequences on an `LruSet`:
`read`, `write_back`, `insert_mru`. -/
inductive LruOp where
  | read (tag : Nat)
  | writeBack (tag : Nat)
  | insertMru (e : CacheEntry)
deriving DecidableEq, Repr

/-- Apply one `LruOp` to an `LruSet` (discarding the returned entry, as a
caller that only drives the set does). -/
def LruSet.applyOp (st : LruSet) : LruOp → LruSet
  | .read tag => (st.read tag).2
  | .writeBack tag => (st.writeBack tag).2
  | .insertMru e => (st.inserMru e).2

/-- Run a sequence of `LruOp`s left to right. -/
def LruSet.runOps (st : LruSet) : List LruOp → LruSet
  | [] => st
  | op :: ops => (st.applyOp op).runOps ops

/-- Reference model for recency (claim C5's "least recently referenced"): the
same operations on a list of lines paired with the clock value of their last
reference (insertion or hit), head = most recent.  This mirrors the spec's
notion of reference time, to be related to `LruSet.runOps`. -/
def tApply (ways clock : Nat) (ts : List (CacheEntry × Nat)) : LruOp → List (CacheEntry × Nat)
  | .read tag =>
      match ts.find? (fun p => tagMatch tag p.1) with
      | none => ts
      | some p =>
          let newMru := CacheEntry.copyCtor p.1
          (newMru, clock) :: ts.filter (fun q => !(q.1.getTag == newMru.getTag))
  | .writeBack tag =>
      match ts.find? (fun p => tagMatch tag p.1) with
      | none => ts
      | some p =>
          let newMru := CacheEntry.copyCtor { p.1 with dirty := true }
          (newMru, clock) :: ts.filter (fun q => !(q.1.getTag == newMru.getTag))
  | .insertMru e =>
      let e' := CacheEntry.copyCtor e
      if ts.length < ways then (e', clock) :: ts else (e', clock) :: ts.dropLast

/-- Run the timed reference model, incrementing the clock at each step. -/
def tRun (ways : Nat) : Nat → List (CacheEntry × Nat) → List LruOp →
    List (CacheEntry × Nat) × Nat
  | clock, ts, [] => (ts, clock)
  | clock, ts, op :: ops => tRun ways (clock + 1) (tApply ways clock ts op) ops

/-- The full operation alphabet of an `LruSet` (claim C7). -/
inductive LruSetOp where
  | insertLru (e : CacheEntry)
  | insertMru (e : CacheEntry)
  | read (tag : Nat)
  | writeBack (tag : Nat)
  | seek (tag : Nat)
  | retrieve (tag : Nat)
  | containsQ (tag : Nat)
deriving DecidableEq, Repr

/-- Apply one `LruSetOp`; `seek` and `contains` do not modify the list. -/
def LruSet.applyFullOp (st : LruSet) : LruSetOp → LruSet
  | .insertLru e => (st.insertLru e).2
  | .insertMru e => (st.inserMru e).2
  | .read tag => (st.read tag).2
  | .writeBack tag => (st.writeBack tag).2
  | .seek _ => st
  | .retrieve tag => (st.retrieve tag).2
  | .containsQ _ => st

/-- Run a sequence of `LruSetOp`s. -/
def LruSet.runFullOps (st : LruSet) : List LruSetOp → LruSet
  | [] => st
  | op :: ops => (st.applyFullOp op).runFullOps ops

/-- The operation alphabet of a `VictimSet` (claim C7). -/
inductive VictimOp where
  | insert (e : CacheEntry)
  | seek (tag : Nat)
  | retrieve (tag : Nat)
  | containsQ (tag : Nat)
deriving DecidableEq, Repr

/-- Apply one `VictimOp`. -/
def VictimSet.applyOp (st : VictimSet) : VictimOp → VictimSet
  | .insert e => (st.insert e).2
  | .seek _ => st
  | .retrieve tag => (st.retrieve tag).2
  | .containsQ _ => st

/-- Run a sequence of `VictimOp`s. -/
def VictimSet.runOps (st : VictimSet) : List VictimOp → VictimSet
  | [] => st
  | op :: ops => (st.applyOp op).runOps ops

/-- Run a sequence of `VictimSet::insert` calls, collecting the non-blank
evictions in the order they were produced. -/
def VictimSet.insertRun (st : VictimSet) : List CacheEntry → VictimSet × List CacheEntry
  | [] => (st, [])
  | e :: es =>
      let r := st.insert e
      let rest := (r.2).insertRun es
      (rest.1, (if r.1.blank then [] else [r.1]) ++ rest.2)

namespace Prefetcher

/-- Claim C4's version of the prefetch loop, written from the claim's words:
identical to `prefetchLoop` except that the candidate is inserted at the MRU
position via `LruSet::inserMru` instead of `LruSet::insertLru`.  Kept only to
compare against the code's `prefetchLoop`. -/
def specMruLoop : Nat → CacheEntry → Nat → List LruSet → List CacheEntry →
    Option (List CacheEntry × List LruSet)
  | 0, _, _, cache, evs => some (evs, cache)
  | n + 1, tmp, blockAddr, cache, evs =>
      let blockAddr' := add64 blockAddr 1
      let tmp' := tmp.setBlockAddress blockAddr'
      match cache.get? tmp'.getIndex with
      | none => none
      | some prefEntrySet =>
          if prefEntrySet.containsTag tmp'.getTag then
            specMruLoop n tmp' blockAddr' cache evs
          else
            let res := prefEntrySet.inserMru tmp'
            let cache' := cache.set tmp'.getIndex res.2
            let evs' := if res.1.blank then evs else evs ++ [res.1]
            specMruLoop n tmp' blockAddr' cache' evs'

/-- Claim C4's version of `prefetch`, inserting via `inserMru`
(see `specMruLoop`). -/
def specPrefetchMru (pf : Prefetcher) (prefCache : List LruSet) (startEntry : CacheEntry) :
    Option (Prefetcher × List LruSet) :=
  let tmp := ((CacheEntry.copyCtor startEntry).setDirty false).setPrefetched true
  (specMruLoop pf.k tmp startEntry.getBlockAddress prefCache []).map
    (fun r => ({ pf with evictions := r.1 }, r.2))

end Prefetcher

/-- `cache_config_t`: fields `c, s` (L1), `C, S` (L2), `b, v, k`. -/
structure CacheConfig where
  c : Nat
  s : Nat
  C2 : Nat
  S2 : Nat
  b : Nat
  v : Nat
  k : Nat
deriving DecidableEq, Repr

/-- The global state built by `cache_init`. -/
structure SimState where
  l1 : List LruSet
  l2 : List LruSet
  l2Prefetch : Prefetcher
  vc : VictimSet
deriving DecidableEq, Repr

/-- The vector-population part of `cache_init`: both loops `push_back` into
`l1` (the second loop pushes the `L2_NUM_SETS` L2-shaped sets into `l1` as
well); nothing is ever pushed into `l2`. -/
def initVectors (conf : CacheConfig) : List LruSet × List LruSet :=
  let L1_NUM_SETS := shl 1 (sub64 (sub64 conf.c conf.s) conf.b)
  let L2_NUM_SETS := shl 1 (sub64 (sub64 conf.C2 conf.S2) conf.b)
  let l1 := List.replicate L1_NUM_SETS (LruSet.new conf.c conf.b conf.s) ++
            List.replicate L2_NUM_SETS (LruSet.new conf.C2 conf.b conf.S2)
  (l1, ([] : List LruSet))

/-- `cache_init(conf)`: performs no geometry validation, sets the globals,
populates the vectors (see `initVectors`), initialises the prefetcher and the
victim cache, and then unconditionally executes
`throw "done initializing!!!\n"` — modelled as `Except.error` carrying the
thrown string, so the built state is discarded on every input. -/
def cache_init (conf : CacheConfig) : Except String SimState :=
  let vecs := initVectors conf
  let _st : SimState :=
    { l1 := vecs.1, l2 := vecs.2,
      l2Prefetch := { k := conf.k, c := conf.C2, b := conf.b, s := conf.S2, evictions := [] },
      vc := VictimSet.new conf.v conf.b }
  Except.error "done initializing!!!\n"

/-!  Theorems.  -/

lemma clog2_one : clog2 1 = 0 := Nat.clog_one_right 2

lemma clog2_two : clog2 2 = 1 := by
  rw [clog2, Nat.clog_of_two_le (by norm_num) (by norm_num)]
  norm_num

lemma clog2_three : clog2 3 = 2 := by
  have h : clog2 2 = 1 := clog2_two
  rw [clog2] at h ⊢
  rw [Nat.clog_of_two_le (by norm_num) (by norm_num)]
  norm_num [h]

lemma M_pos : 0 < M := by norm_num [M]

lemma shl_eq_zero_of_ge {x n : Nat} (h : 64 ≤ n) : shl x n = 0 := by
  simp only [shl, M]
  exact Nat.mod_eq_zero_of_dvd (Dvd.dvd.mul_left (Nat.pow_dvd_pow 2 h) x)

lemma shl_one_of_le63 {n : Nat} (h : n ≤ 63) : shl 1 n = 2 ^ n := by
  have h1 : (2:Nat) ^ n ≤ 2 ^ 63 := Nat.pow_le_pow_right (by norm_num) h
  have h2 : (2:Nat) ^ n < M := lt_of_le_of_lt h1 (by norm_num [M])
  simp [shl, Nat.mod_eq_of_lt h2]

lemma land_eq_and (x y : Nat) : Nat.land x y = x &&& y := rfl

lemma lor_eq_or (x y : Nat) : Nat.lor x y = x ||| y := rfl

lemma lor_mod_two_pow (x y p : Nat) : Nat.lor x y % 2 ^ p = Nat.lor (x % 2 ^ p) (y % 2 ^ p) := by
  rw [lor_eq_or, lor_eq_or]
  apply Nat.eq_of_testBit_eq
  intro i
  simp only [Nat.testBit_mod_two_pow, Nat.testBit_or, Bool.and_or_distrib_left]

lemma shl_mod_two_pow {x b : Nat} (h : b ≤ 64) : shl x b % 2 ^ b = 0 := by
  apply Nat.mod_eq_zero_of_dvd
  rw [shl]
  have hd : (2:Nat) ^ b ∣ M := by
    simp only [M]; exact Nat.pow_dvd_pow 2 h
  exact (Nat.dvd_mod_iff hd).2 (dvd_mul_left (2 ^ b) x)

lemma sub64_small {x y : Nat} (hx : x < M) (hyx : y ≤ x) : sub64 x y = x - y := by
  have hy : y < M := lt_of_le_of_lt hyx hx
  rw [sub64, Nat.mod_eq_of_lt hx, Nat.mod_eq_of_lt hy]
  have h : x + (M - y) = (x - y) + M := by omega
  rw [h, Nat.add_mod_right, Nat.mod_eq_of_lt (by omega)]

lemma sub64_zero_one : sub64 0 1 = M - 1 := by
  have hMp : 0 < M := M_pos
  have h1 : (1:Nat) % M = 1 := Nat.mod_eq_of_lt (by norm_num [M])
  rw [sub64, h1, Nat.zero_mod, Nat.zero_add, Nat.mod_eq_of_lt (by omega)]

lemma land_M_sub_one {a : Nat} (ha : a < M) : Nat.land a (M - 1) = a := by
  rw [land_eq_and]
  have h : M - 1 = 2 ^ 64 - 1 := by norm_num [M]
  rw [h, Nat.and_pow_two_sub_one_eq_mod]
  exact Nat.mod_eq_of_lt (by simpa [M] using ha)

lemma compl64_zero : compl64 0 = M - 1 := by
  rw [compl64, Nat.zero_mod, Nat.sub_zero]

lemma compl64_M_sub_one : compl64 (M - 1) = 0 := by
  rw [compl64, Nat.mod_eq_of_lt (show M - 1 < M by have := M_pos; omega), Nat.sub_self]

lemma sba_core (a b nbA : Nat) (ha : a < M) :
    Nat.lor (Nat.land a (compl64 (shl (sub64 (shl 1 (sub64 64 b)) 1) b))) (shl nbA b)
      = Nat.lor (shl nbA b) (a % 2 ^ b) := by
  have h64M : (64 : Nat) < M := by norm_num [M]
  have hMp : 0 < M := M_pos
  rcases Nat.lt_or_ge b 64 with h64 | h64
  · rcases Nat.eq_zero_or_pos b with hb0 | hbpos
    · -- b = 0
      subst hb0
      rw [sub64_small h64M (by norm_num), show (64:Nat) - 0 = 64 from rfl,
          shl_eq_zero_of_ge (le_refl 64), sub64_zero_one]
      rw [show shl (M - 1) 0 = M - 1 from by
        rw [shl, pow_zero, Nat.mul_one, Nat.mod_eq_of_lt (by omega)]]
      rw [compl64_M_sub_one]
      rw [show Nat.land a 0 = 0 from by rw [land_eq_and]; exact Nat.and_zero a]
      rw [show a % 2 ^ 0 = 0 from by rw [pow_zero, Nat.mod_one]]
      rw [show Nat.lor 0 (shl nbA 0) = shl nbA 0 from by rw [lor_eq_or]; exact Nat.zero_or _]
      rw [show Nat.lor (shl nbA 0) 0 = shl nbA 0 from by rw [lor_eq_or]; exact Nat.or_zero _]
    · -- 1 <= b <= 63
      have hsub : sub64 64 b = 64 - b := sub64_small h64M (by omega)
      rw [hsub, shl_one_of_le63 (by omega)]
      have hbp : (0:Nat) < 2 ^ b := Nat.pow_pos (by norm_num)
      have hbleM : (2:Nat) ^ b ≤ M := by
        simp only [M]; exact Nat.pow_le_pow_right (by norm_num) (by omega)
      have hsub2 : sub64 (2 ^ (64 - b)) 1 = 2 ^ (64 - b) - 1 := by
        apply sub64_small _ Nat.one_le_two_pow
        calc (2:Nat) ^ (64 - b) ≤ 2 ^ 63 := Nat.pow_le_pow_right (by norm_num) (by omega)
          _ < M := by norm_num [M]
      rw [hsub2]
      have hmul : (2 ^ (64 - b) - 1) * 2 ^ b = 2 ^ 64 - 2 ^ b := by
        have he : 64 - b + b = 64 := by omega
        rw [Nat.sub_mul, one_mul, ← Nat.pow_add, he]
      have hmask : shl (2 ^ (64 - b) - 1) b = M - 2 ^ b := by
        rw [shl, hmul,
            Nat.mod_eq_of_lt (show 2 ^ 64 - 2 ^ b < M from
              Nat.sub_lt (Nat.pow_pos (by norm_num)) hbp)]
        rfl
      rw [hmask]
      have hcompl : compl64 (M - 2 ^ b) = 2 ^ b - 1 := by
        rw [compl64, Nat.mod_eq_of_lt (Nat.sub_lt hMp hbp)]
        omega
      rw [hcompl]
      rw [show Nat.land a (2 ^ b - 1) = a % 2 ^ b from by
        rw [land_eq_and]; exact Nat.and_pow_two_sub_one_eq_mod a b]
      rw [lor_eq_or, lor_eq_or, Nat.or_comm]
  · -- b >= 64: every shift by b wraps to 0 and the mask computation collapses
    rw [shl_eq_zero_of_ge h64]
    rw [compl64_zero, land_M_sub_one ha]
    rw [shl_eq_zero_of_ge (x := nbA) h64]
    have hMle : M ≤ 2 ^ b := by
      simp only [M]; exact Nat.pow_le_pow_right (by norm_num) h64
    have hmod : a % 2 ^ b = a := Nat.mod_eq_of_lt (lt_of_lt_of_le ha hMle)
    rw [hmod, lor_eq_or, lor_eq_or, Nat.or_zero, Nat.zero_or]

lemma victimSet_new_3_5 :
    VictimSet.new 3 5 = { ways := 4, c := 7, b := 5, s := 2, v := 3, set := [] } := by
  rw [VictimSet.new, clog2_three]
  rfl

/-- C1: `shiftAndMask` computes `(val >> shiftAmount) & ((2 << bitCount) - 1)`,
a mask of `bitCount + 1` bits, so an extracted field is one bit wider than its
declared bit count.  At the valid geometry `(c, b, s) = (1, 0, 0)` (where
`c ≥ s + b`) and address `1`, the byte-offset field is declared `0` bits wide
(`byteOffsetSize = 0`) yet `getByteOffset` returns `1`: the 0-bit field
contributes one bit instead of nothing.  Likewise `shiftAndMask 8 3 0 = 8`,
while an exact 3-bit mask would give `0`. -/
theorem c1_zero_bit_field_contributes :
    (CacheEntry.init 1 false 1 0 0).byteOffsetSize = 0
      ∧ (CacheEntry.init 1 false 1 0 0).getByteOffset = 1
      ∧ CacheEntry.shiftAndMask 8 3 0 = 8 := by
  refine ⟨rfl, by decide, by decide⟩

/-- C2: `cache_init` performs no geometry validation and ends in an
unconditional `throw`, so even on the geometrically valid configuration
`l1_c = 10, l1_s = 1, l2_c = 12, l2_s = 2, b = 5, v = 0, k = 0`
(`l1_c ≥ l1_s + b` and `l2_c ≥ l2_s + b`) initialization aborts instead of
completing successfully. -/
theorem c2_cache_init_throws_on_valid_config :
    cache_init { c := 10, s := 1, C2 := 12, S2 := 2, b := 5, v := 0, k := 0 }
      = Except.error "done initializing!!!\n" := rfl

/-- C3: with `l1_c = 10, l1_s = 1, l2_c = 12, l2_s = 2, b = 5` the L1 level
should have `2^(10-1-5) = 16` sets and the L2 level `2^(12-2-5) = 32` sets,
but both population loops of `cache_init` push into `l1`: the `l1` vector
ends with `16 + 32 = 48` sets and the `l2` vector stays empty. -/
theorem c3_both_loops_fill_l1 :
    ((initVectors { c := 10, s := 1, C2 := 12, S2 := 2, b := 5, v := 0, k := 0 }).1.length = 48)
      ∧ ((initVectors { c := 10, s := 1, C2 := 12, S2 := 2, b := 5, v := 0, k := 0 }).2.length = 0)
    := by constructor <;> decide

/-- C8: `popEviction` on an empty evictions buffer calls `std::list::front()`
and `pop_front()` on an empty list — undefined behaviour, modelled as `none` —
instead of returning the blank entry; on a non-empty buffer it removes and
returns the oldest eviction, and `checkEmpty` reports emptiness correctly. -/
theorem c8_popEviction_empty_is_undefined :
    Prefetcher.popEviction { k := 0, c := 12, b := 5, s := 2, evictions := [] } = none
      ∧ Prefetcher.checkEmpty { k := 0, c := 12, b := 5, s := 2, evictions := [] } = true
      ∧ Prefetcher.popEviction
          { k := 0, c := 12, b := 5, s := 2, evictions := [CacheEntry.init 7 false 12 5 2] }
          = some (CacheEntry.init 7 false 12 5 2,
                  { k := 0, c := 12, b := 5, s := 2, evictions := [] })
      ∧ Prefetcher.checkEmpty
          { k := 0, c := 12, b := 5, s := 2, evictions := [CacheEntry.init 7 false 12 5 2] }
          = false := by
  exact ⟨rfl, rfl, rfl, rfl⟩

/-- C4 (counterexample): `Prefetcher::prefetch` inserts candidates through
`insertLru` (the LRU end), not through `insert_mru`.  With a one-block
prefetch (`k = 1`) into an L2 of geometry `c = 3, b = 1, s = 1` (2 ways, one
index bit; all shifts defined) whose set 1 already holds the line with
address `10`, triggered by the line with address `0` (candidate block
address `1`, i.e. address `2`, decoding to set 1), the run differs from the
claim's `insert_mru` version, and afterwards the pre-existing line is still
at the MRU (head) position of set 1 — the candidate was appended at the LRU
end. -/
theorem c4_candidate_not_at_mru :
    Prefetcher.prefetch { k := 1, c := 3, b := 1, s := 1, evictions := [] }
        [LruSet.new 3 1 1,
         { ways := 2, c := 3, b := 1, s := 1, set := [CacheEntry.init 10 false 3 1 1] }]
        (CacheEntry.init 0 false 3 1 1)
      ≠ Prefetcher.specPrefetchMru { k := 1, c := 3, b := 1, s := 1, evictions := [] }
        [LruSet.new 3 1 1,
         { ways := 2, c := 3, b := 1, s := 1, set := [CacheEntry.init 10 false 3 1 1] }]
        (CacheEntry.init 0 false 3 1 1)
    ∧ (Prefetcher.prefetch { k := 1, c := 3, b := 1, s := 1, evictions := [] }
        [LruSet.new 3 1 1,
         { ways := 2, c := 3, b := 1, s := 1, set := [CacheEntry.init 10 false 3 1 1] }]
        (CacheEntry.init 0 false 3 1 1)).map (fun r => r.2.map (fun st => st.set.head?))
      = some [none, some (CacheEntry.init 10 false 3 1 1)] := by
  constructor
  · decide
  · decide

/-- C6 (counterexample): with `v = 3` (not a power of two) and `b = 5` the
victim set's capacity is `2^clog2(3) = 4`, not `3`: after three distinct
insertions it holds `3 = V` lines, and a fourth insertion does *not* evict —
it returns a blank entry and the set grows to `4 > V` lines, contradicting
the claimed at-most-`V` occupancy and eviction on insertion into a
`V`-line-full victim cache. -/
theorem c6_nonpow2_capacity_exceeds_v :
    (VictimSet.new 3 5).ways = 4
      ∧ (((((VictimSet.new 3 5).insert (CacheEntry.init 0 false 7 5 2)).2.insert
            (CacheEntry.init 32 false 7 5 2)).2.insert
            (CacheEntry.init 64 false 7 5 2)).2.set.length = 3)
      ∧ ((((((VictimSet.new 3 5).insert (CacheEntry.init 0 false 7 5 2)).2.insert
            (CacheEntry.init 32 false 7 5 2)).2.insert
            (CacheEntry.init 64 false 7 5 2)).2.insert
            (CacheEntry.init 96 false 7 5 2)).1.blank = true)
      ∧ ((((((VictimSet.new 3 5).insert (CacheEntry.init 0 false 7 5 2)).2.insert
            (CacheEntry.init 32 false 7 5 2)).2.insert
            (CacheEntry.init 64 false 7 5 2)).2.insert
            (CacheEntry.init 96 false 7 5 2)).2.set.length = 4) := by
  rw [victimSet_new_3_5]
  refine ⟨rfl, by decide, by decide, by decide⟩

/-- On the C++-defined region `1 ≤ b ≤ 63` (where no shift count reaches 64),
`setBlockAddress(nbA)` does replace only the block-address bits: the
resulting address is `(nbA << b) | (addr % 2^b)`, the low `b` byte-offset
bits are unchanged, and every other field of the entry is untouched.  Here
the wrap model is exact, so this is a fact about the source, not about a UB
resolution; the `b = 0` case the claim also covers is settled separately
(see the C9 theorem below). -/
theorem setBlockAddress_defined_region (e : CacheEntry) (nbA : Nat)
    (ha : e.addr < M) (hb1 : 1 ≤ e.b) (hb63 : e.b ≤ 63) :
    (e.setBlockAddress nbA).addr = Nat.lor (shl nbA e.b) (e.addr % 2 ^ e.b)
      ∧ (e.setBlockAddress nbA).addr % 2 ^ e.b = e.addr % 2 ^ e.b
      ∧ (e.setBlockAddress nbA).dirty = e.dirty
      ∧ (e.setBlockAddress nbA).c = e.c
      ∧ (e.setBlockAddress nbA).b = e.b
      ∧ (e.setBlockAddress nbA).s = e.s
      ∧ (e.setBlockAddress nbA).blank = e.blank
      ∧ (e.setBlockAddress nbA).prefetched = e.prefetched := by
  have h1 : (e.setBlockAddress nbA).addr = Nat.lor (shl nbA e.b) (e.addr % 2 ^ e.b) :=
    sba_core e.addr e.b nbA ha
  refine ⟨h1, ?_, rfl, rfl, rfl, rfl, rfl, rfl⟩
  rw [h1]
  rw [lor_mod_two_pow, shl_mod_two_pow (by omega)]
  rw [Nat.mod_eq_of_lt (Nat.mod_lt e.addr (Nat.pow_pos (by norm_num)))]
  rw [lor_eq_or, Nat.zero_or]

/-- C9: the claim explicitly includes `b = 0`, but there the source computes
`1UL << (ADDR_WIDTH - b) = 1UL << 64` — undefined behaviour.  Under the
shift-count-masking semantics mainstream compilers and hardware actually
execute (`setBlockAddressMasked`), the mask becomes `((1 << 0) - 1) << 0 = 0`,
so the old address is left in place and the new block address is OR-merged
into it: at address `5`, geometry `(c, b, s) = (1, 0, 0)`, new block address
`2`, the result is `5 | 2 = 7`, not the `2` the claim's
`(new_block_address << b) | original_byte_offset` requires.  Only the
wrap-around resolution of the UB (`setBlockAddress`) yields `2`. -/
theorem c9_b0_shift_is_ub :
    ((CacheEntry.init 5 false 1 0 0).setBlockAddressMasked 2).addr = 7
      ∧ ((CacheEntry.init 5 false 1 0 0).setBlockAddress 2).addr = 2
      ∧ ((CacheEntry.init 5 false 1 0 0).setBlockAddressMasked 2).addr ≠ 2 := by
  refine ⟨by decide, by decide, by decide⟩

lemma copyCtor_getTag (e : CacheEntry) : (CacheEntry.copyCtor e).getTag = e.getTag := rfl

lemma copyCtor_prefetched (e : CacheEntry) : (CacheEntry.copyCtor e).prefetched = false := rfl

lemma copyCtor_blank (e : CacheEntry) : (CacheEntry.copyCtor e).blank = false := rfl

lemma copyCtor_eq_self {e : CacheEntry} (hb : e.blank = false) (hp : e.prefetched = false) :
    CacheEntry.copyCtor e = e := by
  cases e
  simp_all [CacheEntry.copyCtor]

lemma getTag_withDirty (f : CacheEntry) (d : Bool) :
    ({ f with dirty := d } : CacheEntry).getTag = f.getTag := rfl

lemma length_filter_lt {α : Type} (p : α → Bool) (l : List α) (x : α)
    (hx : x ∈ l) (hpx : p x = false) : (l.filter p).length < l.length := by
  induction l with
  | nil => cases hx
  | cons a t ih =>
      rcases List.mem_cons.1 hx with rfl | hxt
      · rw [List.filter_cons, hpx]
        exact Nat.lt_succ_of_le (List.length_filter_le p t)
      · rw [List.filter_cons]
        cases hpa : p a
        · simp only [cond_false, List.length_cons]
          exact Nat.lt_succ_of_lt (ih hxt)
        · simp only [cond_true, List.length_cons]
          exact Nat.succ_lt_succ (ih hxt)

lemma getLast?_length_pos {α : Type} {l : List α} {a : α} (h : l.getLast? = some a) :
    1 ≤ l.length := by
  cases l with
  | nil => simp at h
  | cons x t => simp [Nat.succ_le_succ]

lemma insertLru_ways (st : LruSet) (e : CacheEntry) : (st.insertLru e).2.ways = st.ways := by
  rw [LruSet.insertLru]
  split
  · rfl
  · split <;> rfl

lemma inserMru_ways (st : LruSet) (e : CacheEntry) : (st.inserMru e).2.ways = st.ways := by
  rw [LruSet.inserMru]
  split
  · rfl
  · split <;> rfl

lemma read_ways (st : LruSet) (tag : Nat) : (st.read tag).2.ways = st.ways := by
  rw [LruSet.read]
  split <;> rfl

lemma writeBack_ways (st : LruSet) (tag : Nat) : (st.writeBack tag).2.ways = st.ways := by
  rw [LruSet.writeBack]
  split <;> rfl

lemma retrieve_ways (st : LruSet) (tag : Nat) : (st.retrieve tag).2.ways = st.ways := by
  rw [LruSet.retrieve]
  split <;> rfl

lemma applyFullOp_ways (st : LruSet) (op : LruSetOp) : (st.applyFullOp op).ways = st.ways := by
  cases op <;>
    simp only [LruSet.applyFullOp, insertLru_ways, inserMru_ways, read_ways, writeBack_ways,
      retrieve_ways]

lemma insertLru_length (st : LruSet) (e : CacheEntry) (h : st.set.length ≤ st.ways) :
    (st.insertLru e).2.set.length ≤ st.ways := by
  rw [LruSet.insertLru]
  split
  · simp only [List.length_append, List.length_cons, List.length_nil]
    omega
  · split
    · exact h
    · rename_i lru heq
      have h1 := getLast?_length_pos heq
      simp only [List.length_append, List.length_dropLast, List.length_cons, List.length_nil]
      omega

lemma inserMru_length (st : LruSet) (e : CacheEntry) (h : st.set.length ≤ st.ways) :
    (st.inserMru e).2.set.length ≤ st.ways := by
  rw [LruSet.inserMru]
  split
  · simp only [List.length_cons]
    omega
  · split
    · exact h
    · rename_i lru heq
      have h1 := getLast?_length_pos heq
      simp only [List.length_cons, List.length_dropLast]
      omega

lemma read_length (st : LruSet) (tag : Nat) (h : st.set.length ≤ st.ways) :
    (st.read tag).2.set.length ≤ st.ways := by
  rw [LruSet.read]
  dsimp only
  split
  · exact h
  · rename_i f heq
    have hmem := List.mem_of_find?_eq_some heq
    have hpx : (fun x => !(x.getTag == (CacheEntry.copyCtor f).getTag)) f = false := by
      simp [copyCtor_getTag]
    have := length_filter_lt (fun x => !(x.getTag == (CacheEntry.copyCtor f).getTag))
      st.set f hmem hpx
    simp only [List.length_cons]
    omega

lemma writeBack_length (st : LruSet) (tag : Nat) (h : st.set.length ≤ st.ways) :
    (st.writeBack tag).2.set.length ≤ st.ways := by
  rw [LruSet.writeBack]
  dsimp only
  split
  · exact h
  · rename_i f heq
    have hmem := List.mem_of_find?_eq_some heq
    have hpx : (fun x =>
        !(x.getTag == (CacheEntry.copyCtor { f with dirty := true }).getTag)) f = false := by
      simp [copyCtor_getTag, getTag_withDirty]
    have := length_filter_lt
      (fun x => !(x.getTag == (CacheEntry.copyCtor { f with dirty := true }).getTag))
      st.set f hmem hpx
    simp only [List.length_cons]
    omega

lemma retrieve_length (st : LruSet) (tag : Nat) (h : st.set.length ≤ st.ways) :
    (st.retrieve tag).2.set.length ≤ st.ways := by
  rw [LruSet.retrieve]
  split
  · exact h
  · exact le_trans (List.length_filter_le _ _) h

lemma applyFullOp_length (st : LruSet) (op : LruSetOp) (h : st.set.length ≤ st.ways) :
    (st.applyFullOp op).set.length ≤ st.ways := by
  cases op with
  | insertLru e => exact insertLru_length st e h
  | insertMru e => exact inserMru_length st e h
  | read tag => exact read_length st tag h
  | writeBack tag => exact writeBack_length st tag h
  | seek tag => exact h
  | retrieve tag => exact retrieve_length st tag h
  | containsQ tag => exact h

lemma runFullOps_length (ops : List LruSetOp) : ∀ (st : LruSet), st.set.length ≤ st.ways →
    (st.runFullOps ops).set.length ≤ (st.runFullOps ops).ways
      ∧ (st.runFullOps ops).ways = st.ways := by
  induction ops with
  | nil => exact fun st h => ⟨h, rfl⟩
  | cons op ops ih =>
      intro st h
      have h1 : (st.applyFullOp op).set.length ≤ (st.applyFullOp op).ways := by
        rw [applyFullOp_ways]
        exact applyFullOp_length st op h
      have h2 := ih (st.applyFullOp op) h1
      refine ⟨h2.1, ?_⟩
      rw [LruSet.runFullOps, h2.2, applyFullOp_ways]



lemma vinsert_ways (st : VictimSet) (e : CacheEntry) : (st.insert e).2.ways = st.ways := by
  rw [VictimSet.insert]
  split
  · rfl
  · split <;> rfl

lemma vinsert_length (st : VictimSet) (e : CacheEntry) (h : st.set.length ≤ st.ways) :
    (st.insert e).2.set.length ≤ st.ways := by
  rw [VictimSet.insert]
  split
  · simp only [List.length_cons]
    omega
  · split
    · exact h
    · rename_i fifo heq
      have h1 := getLast?_length_pos heq
      simp only [List.length_cons, List.length_dropLast]
      omega

lemma vretrieve_ways (st : VictimSet) (tag : Nat) : (st.retrieve tag).2.ways = st.ways := by
  rw [VictimSet.retrieve]
  split <;> rfl

lemma vretrieve_length (st : VictimSet) (tag : Nat) (h : st.set.length ≤ st.ways) :
    (st.retrieve tag).2.set.length ≤ st.ways := by
  rw [VictimSet.retrieve]
  split
  · exact h
  · exact le_trans (List.length_filter_le _ _) h

lemma vapplyOp_ways (st : VictimSet) (op : VictimOp) : (st.applyOp op).ways = st.ways := by
  cases op <;> simp only [VictimSet.applyOp, vinsert_ways, vretrieve_ways]

lemma vapplyOp_length (st : VictimSet) (op : VictimOp) (h : st.set.length ≤ st.ways) :
    (st.applyOp op).set.length ≤ st.ways := by
  cases op with
  | insert e => exact vinsert_length st e h
  | seek tag => exact h
  | retrieve tag => exact vretrieve_length st tag h
  | containsQ tag => exact h

lemma vrunOps_length (ops : List VictimOp) : ∀ (st : VictimSet), st.set.length ≤ st.ways →
    (st.runOps ops).set.length ≤ (st.runOps ops).ways ∧ (st.runOps ops).ways = st.ways := by
  induction ops with
  | nil => exact fun st h => ⟨h, rfl⟩
  | cons op ops ih =>
      intro st h
      have h1 : (st.applyOp op).set.length ≤ (st.applyOp op).ways := by
        rw [vapplyOp_ways]
        exact vapplyOp_length st op h
      have h2 := ih (st.applyOp op) h1
      refine ⟨h2.1, ?_⟩
      rw [VictimSet.runOps, h2.2, vapplyOp_ways]

/-- C7: capacity invariant — starting from a freshly constructed set, no
sequence of operations (`insertLru`, `insert_mru`, `read`, `write_back`,
`seek`/find, `retrieve`/take, `contains` on an `LruSet`; `insert`,
`seek`, `retrieve`, `contains` on a `VictimSet`) ever leaves more than
`ways = 2^s` lines in the set (for the victim set, `ways = 2^clog2(v)`). -/
theorem c7_capacity_invariant (c b s v b2 : Nat) (hs : s ≤ 63) (hv : clog2 v ≤ 63)
    (lops : List LruSetOp) (vops : List VictimOp) :
    ((LruSet.new c b s).runFullOps lops).set.length ≤ 2 ^ s
      ∧ ((VictimSet.new v b2).runOps vops).set.length ≤ 2 ^ clog2 v := by
  constructor
  · have h0 : (LruSet.new c b s).set.length ≤ (LruSet.new c b s).ways := by
      simp [LruSet.new]
    have h := runFullOps_length lops (LruSet.new c b s) h0
    have hw : (LruSet.new c b s).ways = 2 ^ s := by
      simp only [LruSet.new]
      exact shl_one_of_le63 hs
    have h1 := h.1
    rw [h.2, hw] at h1
    exact h1
  · have h0 : (VictimSet.new v b2).set.length ≤ (VictimSet.new v b2).ways := by
      simp [VictimSet.new]
    have h := vrunOps_length vops (VictimSet.new v b2) h0
    have hw : (VictimSet.new v b2).ways = 2 ^ clog2 v := by
      simp only [VictimSet.new]
      exact shl_one_of_le63 hv
    have h1 := h.1
    rw [h.2, hw] at h1
    exact h1

/-- C7 witness: a 2-way L1-style set and a 2-entry victim set driven through
a few concrete operations. -/
theorem c7_capacity_invariant_witness :
    (1 ≤ 63 ∧ clog2 2 ≤ 63)
      ∧ ((LruSet.new 10 5 1).runFullOps
            [LruSetOp.insertLru (CacheEntry.init 0 false 10 5 1),
             LruSetOp.insertMru (CacheEntry.init 4096 false 10 5 1),
             LruSetOp.read ((CacheEntry.init 0 false 10 5 1).getTag)]).set.length ≤ 2 ^ 1
      ∧ ((VictimSet.new 2 5).runOps
            [VictimOp.insert (CacheEntry.init 0 false 6 5 1),
             VictimOp.insert (CacheEntry.init 32 false 6 5 1),
             VictimOp.insert (CacheEntry.init 64 false 6 5 1)]).set.length ≤ 2 ^ clog2 2 :=
  ⟨⟨by norm_num, by rw [clog2_two]; norm_num⟩,
   (c7_capacity_invariant 10 5 1 2 5 (by norm_num) (by rw [clog2_two]; norm_num)
      [LruSetOp.insertLru (CacheEntry.init 0 false 10 5 1),
       LruSetOp.insertMru (CacheEntry.init 4096 false 10 5 1),
       LruSetOp.read ((CacheEntry.init 0 false 10 5 1).getTag)]
      [VictimOp.insert (CacheEntry.init 0 false 6 5 1),
       VictimOp.insert (CacheEntry.init 32 false 6 5 1),
       VictimOp.insert (CacheEntry.init 64 false 6 5 1)]).1,
   (c7_capacity_invariant 10 5 1 2 5 (by norm_num) (by rw [clog2_two]; norm_num)
      [LruSetOp.insertLru (CacheEntry.init 0 false 10 5 1),
       LruSetOp.insertMru (CacheEntry.init 4096 false 10 5 1),
       LruSetOp.read ((CacheEntry.init 0 false 10 5 1).getTag)]
      [VictimOp.insert (CacheEntry.init 0 false 6 5 1),
       VictimOp.insert (CacheEntry.init 32 false 6 5 1),
       VictimOp.insert (CacheEntry.init 64 false 6 5 1)]).2⟩


lemma mem_insertLru {st : LruSet} {e x : CacheEntry} (hx : x ∈ (st.insertLru e).2.set) :
    x ∈ st.set ∨ x = CacheEntry.copyCtor e := by
  rw [LruSet.insertLru] at hx
  split at hx
  · rcases List.mem_append.1 hx with h | h
    · exact Or.inl h
    · exact Or.inr (List.mem_singleton.1 h)
  · split at hx
    · exact Or.inl hx
    · rcases List.mem_append.1 hx with h | h
      · exact Or.inl (List.dropLast_sublist st.set |>.mem h)
      · exact Or.inr (List.mem_singleton.1 h)

lemma mem_inserMru {st : LruSet} {e x : CacheEntry} (hx : x ∈ (st.inserMru e).2.set) :
    x ∈ st.set ∨ x = CacheEntry.copyCtor e := by
  rw [LruSet.inserMru] at hx
  split at hx
  · rcases List.mem_cons.1 hx with h | h
    · exact Or.inr h
    · exact Or.inl h
  · split at hx
    · exact Or.inl hx
    · rcases List.mem_cons.1 hx with h | h
      · exact Or.inr h
      · exact Or.inl (List.dropLast_sublist st.set |>.mem h)

lemma mem_read {st : LruSet} {tag : Nat} {x : CacheEntry} (hx : x ∈ (st.read tag).2.set) :
    x ∈ st.set ∨ x.prefetched = false := by
  rw [LruSet.read] at hx
  split at hx
  · exact Or.inl hx
  · rcases List.mem_cons.1 hx with h | h
    · exact Or.inr (h ▸ copyCtor_prefetched _)
    · exact Or.inl (List.filter_sublist st.set |>.mem h)

lemma mem_writeBack {st : LruSet} {tag : Nat} {x : CacheEntry}
    (hx : x ∈ (st.writeBack tag).2.set) : x ∈ st.set ∨ x.prefetched = false := by
  rw [LruSet.writeBack] at hx
  split at hx
  · exact Or.inl hx
  · rcases List.mem_cons.1 hx with h | h
    · exact Or.inr (h ▸ copyCtor_prefetched _)
    · exact Or.inl (List.filter_sublist st.set |>.mem h)

lemma mem_retrieve {st : LruSet} {tag : Nat} {x : CacheEntry}
    (hx : x ∈ (st.retrieve tag).2.set) : x ∈ st.set := by
  rw [LruSet.retrieve] at hx
  split at hx
  · exact hx
  · exact List.filter_sublist st.set |>.mem hx

lemma mem_vinsert {st : VictimSet} {e x : CacheEntry} (hx : x ∈ (st.insert e).2.set) :
    x ∈ st.set ∨ x = CacheEntry.copyCtor e := by
  rw [VictimSet.insert] at hx
  split at hx
  · rcases List.mem_cons.1 hx with h | h
    · exact Or.inr h
    · exact Or.inl h
  · split at hx
    · exact Or.inl hx
    · rcases List.mem_cons.1 hx with h | h
      · exact Or.inr h
      · exact Or.inl (List.dropLast_sublist st.set |>.mem h)

lemma mem_vretrieve {st : VictimSet} {tag : Nat} {x : CacheEntry}
    (hx : x ∈ (st.retrieve tag).2.set) : x ∈ st.set := by
  rw [VictimSet.retrieve] at hx
  split at hx
  · exact hx
  · exact List.filter_sublist st.set |>.mem hx

lemma applyFullOp_pref {st : LruSet} (op : LruSetOp)
    (h : ∀ x ∈ st.set, x.prefetched = false) :
    ∀ x ∈ (st.applyFullOp op).set, x.prefetched = false := by
  intro x hx
  cases op with
  | insertLru e =>
      rcases mem_insertLru hx with hm | hm
      · exact h x hm
      · exact hm ▸ copyCtor_prefetched e
  | insertMru e =>
      rcases mem_inserMru hx with hm | hm
      · exact h x hm
      · exact hm ▸ copyCtor_prefetched e
  | read tag =>
      rcases mem_read hx with hm | hm
      · exact h x hm
      · exact hm
  | writeBack tag =>
      rcases mem_writeBack hx with hm | hm
      · exact h x hm
      · exact hm
  | seek tag => exact h x hx
  | retrieve tag => exact h x (mem_retrieve hx)
  | containsQ tag => exact h x hx

lemma runFullOps_pref (ops : List LruSetOp) : ∀ (st : LruSet),
    (∀ x ∈ st.set, x.prefetched = false) →
    ∀ x ∈ (st.runFullOps ops).set, x.prefetched = false := by
  induction ops with
  | nil => exact fun st h => h
  | cons op ops ih => exact fun st h => ih _ (applyFullOp_pref op h)

lemma vapplyOp_pref {st : VictimSet} (op : VictimOp)
    (h : ∀ x ∈ st.set, x.prefetched = false) :
    ∀ x ∈ (st.applyOp op).set, x.prefetched = false := by
  intro x hx
  cases op with
  | insert e =>
      rcases mem_vinsert hx with hm | hm
      · exact h x hm
      · exact hm ▸ copyCtor_prefetched e
  | seek tag => exact h x hx
  | retrieve tag => exact h x (mem_vretrieve hx)
  | containsQ tag => exact h x hx

lemma vrunOps_pref (ops : List VictimOp) : ∀ (st : VictimSet),
    (∀ x ∈ st.set, x.prefetched = false) →
    ∀ x ∈ (st.runOps ops).set, x.prefetched = false := by
  induction ops with
  | nil => exact fun st h => h
  | cons op ops ih => exact fun st h => ih _ (vapplyOp_pref op h)

/-- C10: the copy constructor copies only `addr`, `dirty`, `c`, `b`, `s` and
resets `blank` and `prefetched` to `false`; and since every insertion into an
`LruSet` or `VictimSet` passes the entry by value (through the copy
constructor), every line stored in such a set after any operation sequence
has `prefetched = false`, even when the caller set `prefetched = true` on the
entry it passed in. -/
theorem c10_copyCtor_resets_flags :
    (∀ e : CacheEntry, CacheEntry.copyCtor e
        = { addr := e.addr, dirty := e.dirty, c := e.c, b := e.b, s := e.s,
            blank := false, prefetched := false })
      ∧ (∀ c b s : Nat, ∀ ops : List LruSetOp,
          ∀ x ∈ ((LruSet.new c b s).runFullOps ops).set, x.prefetched = false)
      ∧ (∀ v b : Nat, ∀ ops : List VictimOp,
          ∀ x ∈ ((VictimSet.new v b).runOps ops).set, x.prefetched = false) := by
  refine ⟨fun e => rfl, ?_, ?_⟩
  · intro c b s ops
    exact runFullOps_pref ops (LruSet.new c b s) (by intro x hx; cases hx)
  · intro v b ops
    exact vrunOps_pref ops (VictimSet.new v b) (by intro x hx; cases hx)

/-- C10 witness: inserting an entry whose caller set `prefetched := true`
still stores a line with `prefetched = false`. -/
theorem c10_copyCtor_resets_flags_witness :
    CacheEntry.copyCtor ((CacheEntry.init 0 false 10 5 1).setPrefetched true)
        ∈ ((LruSet.new 10 5 1).runFullOps
            [LruSetOp.insertLru ((CacheEntry.init 0 false 10 5 1).setPrefetched true)]).set
      ∧ (CacheEntry.copyCtor ((CacheEntry.init 0 false 10 5 1).setPrefetched true)).prefetched
          = false :=
  ⟨by decide,
   c10_copyCtor_resets_flags.2.1 10 5 1
     [LruSetOp.insertLru ((CacheEntry.init 0 false 10 5 1).setPrefetched true)]
     (CacheEntry.copyCtor ((CacheEntry.init 0 false 10 5 1).setPrefetched true))
     (by decide)⟩


lemma insertRun_spec (es : List CacheEntry) : ∀ (st : VictimSet), 1 ≤ st.ways →
    st.set.length ≤ st.ways → (∀ x ∈ st.set, x.blank = false ∧ x.prefetched = false) →
    (st.insertRun es).1.set
        = (List.drop (st.set.length + es.length - st.ways)
            (st.set.reverse ++ es.map CacheEntry.copyCtor)).reverse
      ∧ (st.insertRun es).2
        = List.take (st.set.length + es.length - st.ways)
            (st.set.reverse ++ es.map CacheEntry.copyCtor)
      ∧ (st.insertRun es).1.ways = st.ways := by
  induction es with
  | nil =>
      intro st hw hlen hnb
      have h0 : st.set.length - st.ways = 0 := by omega
      simp [VictimSet.insertRun, h0]
  | cons e es ih =>
      intro st hw hlen hnb
      rw [VictimSet.insertRun]
      by_cases hfull : st.set.length < st.ways
      · -- under capacity: push_front, blank eviction
        have hins : st.insert e
            = (CacheEntry.blankEntry,
               { st with set := CacheEntry.copyCtor e :: st.set }) := by
          rw [VictimSet.insert, if_pos hfull]
        rw [hins]
        have hih := ih { st with set := CacheEntry.copyCtor e :: st.set } hw
          (by simpa using hfull)
          (by
            intro x hx
            rcases List.mem_cons.1 hx with h | h
            · exact h ▸ ⟨copyCtor_blank e, copyCtor_prefetched e⟩
            · exact hnb x h)
        simp only at hih
        have harith : (CacheEntry.copyCtor e :: st.set).length + es.length - st.ways
            = st.set.length + (e :: es).length - st.ways := by
          simp only [List.length_cons]
          omega
        have hstream : (CacheEntry.copyCtor e :: st.set).reverse ++ es.map CacheEntry.copyCtor
            = st.set.reverse ++ (e :: es).map CacheEntry.copyCtor := by
          simp [List.reverse_cons, List.append_assoc]
        rw [harith, hstream] at hih
        simpa using hih
      · -- full: evict the tail
        have hlen' : st.set.length = st.ways := by omega
        have hne : st.set ≠ [] := by
          intro h
          rw [h] at hlen'
          simp at hlen'
          omega
        obtain ⟨lru, heq⟩ : ∃ a, st.set.getLast? = some a := by
          cases hg : st.set.getLast? with
          | none => exact absurd (List.getLast?_eq_none_iff.1 hg) hne
          | some a => exact ⟨a, rfl⟩
        obtain ⟨ys, hys⟩ := List.getLast?_eq_some_iff.1 heq
        have hlru_norm := hnb lru (List.mem_of_getLast?_eq_some heq)
        have hlru_eq : CacheEntry.copyCtor lru = lru :=
          copyCtor_eq_self hlru_norm.1 hlru_norm.2
        have hins : st.insert e
            = (CacheEntry.copyCtor lru,
               { st with set := CacheEntry.copyCtor e :: st.set.dropLast }) := by
          rw [VictimSet.insert, if_neg hfull, heq]
        have hins2 : st.insert e
            = (lru, { st with set := CacheEntry.copyCtor e :: st.set.dropLast }) := by
          rw [hins, hlru_eq]
        rw [hins2]
        have hlnb : lru.blank = false := hlru_norm.1
        have hih := ih { st with set := CacheEntry.copyCtor e :: st.set.dropLast } hw
          (by
            simp only [List.length_cons, List.length_dropLast]
            omega)
          (by
            intro x hx
            rcases List.mem_cons.1 hx with h | h
            · exact h ▸ ⟨copyCtor_blank e, copyCtor_prefetched e⟩
            · exact hnb x (List.dropLast_sublist st.set |>.mem h))
        simp only at hih
        have hdl : st.set.dropLast = ys := by rw [hys, List.dropLast_concat]
        have hrev : st.set.reverse = lru :: ys.reverse := by
          rw [hys, List.reverse_append]
          rfl
        have hlys : ys.length + 1 = st.ways := by
          have : st.set.length = ys.length + 1 := by rw [hys]; simp
          omega
        -- the stream seen by the tail call is the tail of the full stream
        have hstream : (CacheEntry.copyCtor e :: st.set.dropLast).reverse
              ++ es.map CacheEntry.copyCtor
            = ys.reverse ++ (e :: es).map CacheEntry.copyCtor := by
          rw [hdl]
          simp [List.reverse_cons, List.append_assoc]
        rw [hstream] at hih
        have harith : (CacheEntry.copyCtor e :: st.set.dropLast).length + es.length - st.ways
            = es.length := by
          simp only [List.length_cons, List.length_dropLast, hlen']
          omega
        rw [harith] at hih
        constructor
        · rw [hih.1, hrev, hlen']
          have : st.ways + (e :: es).length - st.ways = es.length + 1 := by
            simp only [List.length_cons]
            omega
          rw [this]
          rw [show (lru :: ys.reverse) ++ (e :: es).map CacheEntry.copyCtor
              = lru :: (ys.reverse ++ (e :: es).map CacheEntry.copyCtor) from rfl]
          rw [List.drop_succ_cons]
        constructor
        · rw [hlnb]
          simp only [Bool.false_eq_true, if_neg]
          rw [hih.2.1, hrev, hlen']
          have : st.ways + (e :: es).length - st.ways = es.length + 1 := by
            simp only [List.length_cons]
            omega
          rw [this]
          rw [show (lru :: ys.reverse) ++ (e :: es).map CacheEntry.copyCtor
              = lru :: (ys.reverse ++ (e :: es).map CacheEntry.copyCtor) from rfl]
          rw [List.take_succ_cons]
          rfl
        · exact hih.2.2


lemma vretrieve_sublist (st : VictimSet) (tag : Nat) :
    (st.retrieve tag).2.set.Sublist st.set := by
  rw [VictimSet.retrieve]
  split
  · exact List.Sublist.refl _
  · exact List.filter_sublist _

/-- C6 (amended): for every victim-cache size `V ≥ 1` the victim set behaves
as a FIFO of capacity `2^clog2(V)` (equal to `V` exactly when `V` is a power
of two): after any sequence of insertions the set holds, newest first, the
last `2^clog2(V)` inserted lines, the evictions are exactly the
oldest-inserted lines in insertion order, the occupancy never exceeds
`2^clog2(V)`, and a `retrieve` (the only mutating lookup) preserves the
relative FIFO order of the remaining lines. -/
theorem c6_victim_fifo_amended (v b : Nat) (_hv : 1 ≤ v) (hc : clog2 v ≤ 63)
    (es : List CacheEntry) :
    ((VictimSet.new v b).insertRun es).1.set
        = ((es.map CacheEntry.copyCtor).drop (es.length - 2 ^ clog2 v)).reverse
      ∧ ((VictimSet.new v b).insertRun es).2
        = (es.map CacheEntry.copyCtor).take (es.length - 2 ^ clog2 v)
      ∧ ((VictimSet.new v b).insertRun es).1.set.length ≤ 2 ^ clog2 v
      ∧ (∀ tag, (((VictimSet.new v b).insertRun es).1.retrieve tag).2.set.Sublist
            ((VictimSet.new v b).insertRun es).1.set) := by
  have hwv : (VictimSet.new v b).ways = 2 ^ clog2 v := by
    simp only [VictimSet.new]
    exact shl_one_of_le63 hc
  have h := insertRun_spec es (VictimSet.new v b)
    (by rw [hwv]; exact Nat.one_le_two_pow)
    (by simp [VictimSet.new])
    (by simp [VictimSet.new])
  rw [hwv] at h
  obtain ⟨h1, h2, -⟩ := h
  have hset : (VictimSet.new v b).set = ([] : List CacheEntry) := rfl
  rw [hset] at h1 h2
  simp only [List.reverse_nil, List.nil_append, List.length_nil, Nat.zero_add] at h1 h2
  refine ⟨h1, h2, ?_, fun tag => vretrieve_sublist _ tag⟩
  rw [h1]
  simp only [List.length_reverse, List.length_drop, List.length_map]
  omega

/-- C6 (amended) witness: `v = 2`, three insertions into a 2-entry victim
cache — the set keeps the two newest lines, the first-inserted line is the
one evicted. -/
theorem c6_victim_fifo_amended_witness :
    (1 ≤ 2 ∧ clog2 2 ≤ 63)
      ∧ ((VictimSet.new 2 5).insertRun
            [CacheEntry.init 0 false 6 5 1, CacheEntry.init 32 false 6 5 1,
             CacheEntry.init 64 false 6 5 1]).2
        = (([CacheEntry.init 0 false 6 5 1, CacheEntry.init 32 false 6 5 1,
             CacheEntry.init 64 false 6 5 1].map CacheEntry.copyCtor).take
              (3 - 2 ^ clog2 2)) :=
  ⟨⟨by norm_num, by rw [clog2_two]; norm_num⟩,
   (c6_victim_fifo_amended 2 5 (by norm_num) (by rw [clog2_two]; norm_num)
      [CacheEntry.init 0 false 6 5 1, CacheEntry.init 32 false 6 5 1,
       CacheEntry.init 64 false 6 5 1]).2.1⟩


lemma copyCtor_dirty (e : CacheEntry) : (CacheEntry.copyCtor e).dirty = e.dirty := rfl

lemma setBlockAddress_dirty (e : CacheEntry) (nbA : Nat) :
    (e.setBlockAddress nbA).dirty = e.dirty := rfl

lemma insertLru_fst (st : LruSet) (e : CacheEntry) :
    (st.insertLru e).1 = CacheEntry.blankEntry
      ∨ ∃ y ∈ st.set, (st.insertLru e).1 = CacheEntry.copyCtor y := by
  rw [LruSet.insertLru]
  split
  · exact Or.inl rfl
  · split
    · exact Or.inl rfl
    · rename_i lru heq
      exact Or.inr ⟨lru, List.mem_of_getLast?_eq_some heq, rfl⟩

lemma prefetchLoop_inv (P : CacheEntry → Prop) (hP : ∀ e, e.dirty = false → P e) :
    ∀ (n : Nat) (tmp : CacheEntry) (bA : Nat) (cache : List LruSet)
      (evs evs' : List CacheEntry) (cache' : List LruSet),
      Prefetcher.prefetchLoop n tmp bA cache evs = some (evs', cache') →
      tmp.dirty = false →
      (∀ st ∈ cache, ∀ x ∈ st.set, P x) →
      (∀ x ∈ evs, x.blank = false ∧ ∃ y, P y ∧ x = CacheEntry.copyCtor y) →
      (∀ st ∈ cache', ∀ x ∈ st.set, P x)
        ∧ (∀ x ∈ evs', x.blank = false ∧ ∃ y, P y ∧ x = CacheEntry.copyCtor y) := by
  intro n
  induction n with
  | zero =>
      intro tmp bA cache evs evs' cache' h hd hc he
      rw [Prefetcher.prefetchLoop] at h
      obtain ⟨h1, h2⟩ := Prod.mk.injEq .. ▸ Option.some.inj h
      exact ⟨h2 ▸ hc, h1 ▸ he⟩
  | succ m ih =>
      intro tmp bA cache evs evs' cache' h hd hc he
      rw [Prefetcher.prefetchLoop] at h
      set tmp' := tmp.setBlockAddress (add64 bA 1) with htmp
      have hd' : tmp'.dirty = false := by rw [htmp, setBlockAddress_dirty, hd]
      split at h
      · exact absurd h (by simp)
      · rename_i prefEntrySet hget
        have hsetmem : prefEntrySet ∈ cache := List.get?_mem hget
        split at h
        · exact ih tmp' (add64 bA 1) cache evs evs' cache' h hd' hc he
        · set res := prefEntrySet.insertLru tmp' with hres
          have hc' : ∀ st ∈ cache.set tmp'.getIndex res.2, ∀ x ∈ st.set, P x := by
            intro st hst x hx
            rcases List.mem_or_eq_of_mem_set hst with hmem | rfl
            · exact hc st hmem x hx
            · rcases mem_insertLru hx with hm | rfl
              · exact hc prefEntrySet hsetmem x hm
              · exact hP _ (by rw [copyCtor_dirty, hd'])
          have he' : ∀ x ∈ (if res.1.blank then evs else evs ++ [res.1]),
              x.blank = false ∧ ∃ y, P y ∧ x = CacheEntry.copyCtor y := by
            by_cases hb : res.1.blank
            · rw [if_pos hb]; exact he
            · rw [if_neg hb]
              intro x hx
              rcases List.mem_append.1 hx with hm | hm
              · exact he x hm
              · have hx1 : x = res.1 := List.mem_singleton.1 hm
                subst hx1
                refine ⟨by simpa using hb, ?_⟩
                rcases insertLru_fst prefEntrySet tmp' with hblk | ⟨y, hy, hres1⟩
                · rw [← hres] at hblk
                  exact absurd (hblk ▸ rfl) hb
                · exact ⟨y, hc prefEntrySet hsetmem y hy, hres ▸ hres1⟩
          exact ih tmp' (add64 bA 1) _ _ evs' cache' h hd' hc' he'


lemma containsTag_false_mem {st : LruSet} {tag : Nat} (h : st.containsTag tag = false) :
    ∀ x ∈ st.set, x.getTag ≠ tag := by
  intro x hx hxt
  have ht : st.containsTag tag = true := by
    rw [LruSet.containsTag, List.any_eq_true]
    exact ⟨x, hx, by simp [tagMatch, hxt]⟩
  rw [h] at ht
  cases ht

lemma insertLru_nodup (st : LruSet) (e : CacheEntry)
    (hfree : st.containsTag e.getTag = false)
    (h : st.set.Pairwise (fun a b => a.getTag ≠ b.getTag)) :
    (st.insertLru e).2.set.Pairwise (fun a b => a.getTag ≠ b.getTag) := by
  have hf := containsTag_false_mem hfree
  rw [LruSet.insertLru]
  split
  · rw [List.pairwise_append]
    refine ⟨h, List.pairwise_singleton _ _, ?_⟩
    intro a ha b hb
    rw [List.mem_singleton.1 hb, copyCtor_getTag]
    exact hf a ha
  · split
    · exact h
    · rw [List.pairwise_append]
      refine ⟨List.Pairwise.sublist (List.dropLast_sublist _) h,
        List.pairwise_singleton _ _, ?_⟩
      intro a ha b hb
      rw [List.mem_singleton.1 hb, copyCtor_getTag]
      exact hf a (List.dropLast_sublist st.set |>.mem ha)

lemma prefetchLoop_nodup :
    ∀ (n : Nat) (tmp : CacheEntry) (bA : Nat) (cache : List LruSet)
      (evs evs' : List CacheEntry) (cache' : List LruSet),
      Prefetcher.prefetchLoop n tmp bA cache evs = some (evs', cache') →
      (∀ st ∈ cache, st.set.Pairwise (fun a b => a.getTag ≠ b.getTag)) →
      ∀ st' ∈ cache', st'.set.Pairwise (fun a b => a.getTag ≠ b.getTag) := by
  intro n
  induction n with
  | zero =>
      intro tmp bA cache evs evs' cache' h hc
      rw [Prefetcher.prefetchLoop] at h
      obtain ⟨-, h2⟩ := Prod.mk.injEq .. ▸ Option.some.inj h
      exact h2 ▸ hc
  | succ m ih =>
      intro tmp bA cache evs evs' cache' h hc
      rw [Prefetcher.prefetchLoop] at h
      set tmp' := tmp.setBlockAddress (add64 bA 1) with htmp
      split at h
      · exact absurd h (by simp)
      · rename_i prefEntrySet hget
        have hsetmem : prefEntrySet ∈ cache := List.get?_mem hget
        split at h
        · exact ih tmp' (add64 bA 1) cache evs evs' cache' h hc
        · rename_i hcont
          have hcf : prefEntrySet.containsTag tmp'.getTag = false := by simpa using hcont
          refine ih tmp' (add64 bA 1) _ _ evs' cache' h ?_
          intro st hst
          rcases List.mem_or_eq_of_mem_set hst with hmem | rfl
          · exact hc st hmem
          · exact insertLru_nodup prefEntrySet tmp' hcf (hc prefEntrySet hsetmem)

/-- C4 (amended): `prefetch` clears the eviction buffer (its outcome does not
depend on the previous buffer contents), and whenever it completes (i.e. no
`std::out_of_range` from `at`), every line a set gained from the call is
clean (`dirty = false`), the buffer holds only non-blank evictions, each the
by-value copy (`CacheEntry lru = set.back()`, resetting `blank`/`prefetched`)
of a line that was resident before the call or else a clean line, and sets
free of duplicate tags stay duplicate-free — candidates being inserted at
the LRU end via `insertLru`, guarded by a `contains` check. -/
theorem c4_prefetch_amended (pf pf' : Prefetcher) (cache cache' : List LruSet)
    (t : CacheEntry) (h : Prefetcher.prefetch pf cache t = some (pf', cache')) :
    (∀ evs0, Prefetcher.prefetch { pf with evictions := evs0 } cache t
        = some (pf', cache'))
      ∧ (∀ st' ∈ cache', ∀ x ∈ st'.set,
          (∃ st ∈ cache, x ∈ st.set) ∨ x.dirty = false)
      ∧ (∀ x ∈ pf'.evictions,
          x.blank = false
            ∧ ((∃ st ∈ cache, ∃ y ∈ st.set, x = CacheEntry.copyCtor y)
                ∨ x.dirty = false))
      ∧ ((∀ st ∈ cache, st.set.Pairwise (fun a b => a.getTag ≠ b.getTag)) →
          ∀ st' ∈ cache', st'.set.Pairwise (fun a b => a.getTag ≠ b.getTag)) := by
  rw [Prefetcher.prefetch] at h
  obtain ⟨⟨evs, c'⟩, hL, hfe⟩ := Option.map_eq_some'.1 h
  have hfe' : (({ pf with evictions := evs } : Prefetcher), c') = (pf', cache') := hfe
  obtain ⟨h1, h2⟩ := Prod.mk.injEq .. ▸ hfe'
  have hd0 : (((CacheEntry.copyCtor t).setDirty false).setPrefetched true).dirty = false := rfl
  have hinv := prefetchLoop_inv
    (fun x => (∃ st ∈ cache, x ∈ st.set) ∨ x.dirty = false)
    (fun e he => Or.inr he)
    pf.k _ t.getBlockAddress cache [] evs c' hL hd0
    (fun st hst x hx => Or.inl ⟨st, hst, hx⟩)
    (fun x hx => absurd hx (List.not_mem_nil x))
  refine ⟨?_, ?_, ?_, ?_⟩
  · intro evs0
    rw [Prefetcher.prefetch]
    show (Prefetcher.prefetchLoop pf.k
        (((CacheEntry.copyCtor t).setDirty false).setPrefetched true)
        t.getBlockAddress cache []).map
          (fun r => ({ pf with evictions := r.1 }, r.2)) = some (pf', cache')
    rw [hL, Option.map_some', h1, h2]
  · exact fun st' hst' x hx => (h2 ▸ hinv.1) st' hst' x hx
  · intro x hx
    have hx' : x ∈ evs := by
      have hev : pf'.evictions = evs := by rw [← h1]
      rw [hev] at hx
      exact hx
    obtain ⟨hb, y, hPy, hxy⟩ := hinv.2 x hx'
    refine ⟨hb, ?_⟩
    rcases hPy with ⟨st, hst, hy⟩ | hclean
    · exact Or.inl ⟨st, hst, y, hy, hxy⟩
    · refine Or.inr ?_
      rw [hxy, copyCtor_dirty]
      exact hclean
  · intro hnd
    exact fun st' hst' =>
      (h2 ▸ prefetchLoop_nodup pf.k _ t.getBlockAddress cache [] evs c' hL hnd) st' hst'


/-- C4 (amended) witness: the one-block prefetch of the counterexample
configuration completes, and rerunning it with a stale, dirty entry sitting
in the eviction buffer yields the same result — the buffer is cleared. -/
theorem c4_prefetch_amended_witness :
    Prefetcher.prefetch { k := 1, c := 3, b := 1, s := 1, evictions := [] }
        [LruSet.new 3 1 1,
         { ways := 2, c := 3, b := 1, s := 1, set := [CacheEntry.init 10 false 3 1 1] }]
        (CacheEntry.init 0 false 3 1 1)
      = some ({ k := 1, c := 3, b := 1, s := 1, evictions := [] },
              [{ ways := 2, c := 3, b := 1, s := 1, set := [] },
               { ways := 2, c := 3, b := 1, s := 1,
                 set := [CacheEntry.init 10 false 3 1 1, CacheEntry.init 2 false 3 1 1] }])
      ∧ Prefetcher.prefetch
          { k := 1, c := 3, b := 1, s := 1, evictions := [CacheEntry.init 9 true 3 1 1] }
          [LruSet.new 3 1 1,
           { ways := 2, c := 3, b := 1, s := 1, set := [CacheEntry.init 10 false 3 1 1] }]
          (CacheEntry.init 0 false 3 1 1)
        = some ({ k := 1, c := 3, b := 1, s := 1, evictions := [] },
                [{ ways := 2, c := 3, b := 1, s := 1, set := [] },
                 { ways := 2, c := 3, b := 1, s := 1,
                   set := [CacheEntry.init 10 false 3 1 1, CacheEntry.init 2 false 3 1 1] }]) :=
  ⟨by decide,
   (c4_prefetch_amended
      { k := 1, c := 3, b := 1, s := 1, evictions := [] }
      { k := 1, c := 3, b := 1, s := 1, evictions := [] }
      [LruSet.new 3 1 1,
       { ways := 2, c := 3, b := 1, s := 1, set := [CacheEntry.init 10 false 3 1 1] }]
      [{ ways := 2, c := 3, b := 1, s := 1, set := [] },
       { ways := 2, c := 3, b := 1, s := 1,
         set := [CacheEntry.init 10 false 3 1 1, CacheEntry.init 2 false 3 1 1] }]
      (CacheEntry.init 0 false 3 1 1)
      (by decide)).1 [CacheEntry.init 9 true 3 1 1]⟩

lemma applyOp_ways (st : LruSet) (op : LruOp) : (st.applyOp op).ways = st.ways := by
  cases op with
  | read tag => exact read_ways st tag
  | writeBack tag => exact writeBack_ways st tag
  | insertMru e => exact inserMru_ways st e

lemma runOps_ways (ops : List LruOp) : ∀ (st : LruSet), (st.runOps ops).ways = st.ways := by
  induction ops with
  | nil => exact fun st => rfl
  | cons op ops ih =>
      intro st
      rw [LruSet.runOps, ih, applyOp_ways]

lemma applyOp_mem (st : LruSet) (op : LruOp) :
    ∀ x ∈ (st.applyOp op).set, x ∈ st.set ∨ ∃ y, x = CacheEntry.copyCtor y := by
  intro x hx
  cases op with
  | read tag =>
      rw [LruSet.applyOp, LruSet.read] at hx
      split at hx
      · exact Or.inl hx
      · rename_i f heq
        rcases List.mem_cons.1 hx with h | h
        · exact Or.inr ⟨f, h⟩
        · exact Or.inl (List.filter_sublist st.set |>.mem h)
  | writeBack tag =>
      rw [LruSet.applyOp, LruSet.writeBack] at hx
      split at hx
      · exact Or.inl hx
      · rename_i f heq
        rcases List.mem_cons.1 hx with h | h
        · exact Or.inr ⟨{ f with dirty := true }, h⟩
        · exact Or.inl (List.filter_sublist st.set |>.mem h)
  | insertMru e =>
      rw [LruSet.applyOp] at hx
      rcases mem_inserMru hx with h | h
      · exact Or.inl h
      · exact Or.inr ⟨e, h⟩

lemma runOps_normalized (ops : List LruOp) : ∀ (st : LruSet),
    (∀ x ∈ st.set, x.blank = false ∧ x.prefetched = false) →
    ∀ x ∈ (st.runOps ops).set, x.blank = false ∧ x.prefetched = false := by
  induction ops with
  | nil => exact fun st h => h
  | cons op ops ih =>
      intro st h
      refine ih (st.applyOp op) ?_
      intro x hx
      rcases applyOp_mem st op x hx with hm | ⟨y, rfl⟩
      · exact h x hm
      · exact ⟨copyCtor_blank y, copyCtor_prefetched y⟩

lemma tApply_fst (st : LruSet) (ts : List (CacheEntry × Nat)) (clock : Nat) (op : LruOp)
    (hs : st.set = ts.map Prod.fst) (hw : 1 ≤ st.ways) :
    (st.applyOp op).set = (tApply st.ways clock ts op).map Prod.fst := by
  cases op with
  | read tag =>
      rw [LruSet.applyOp, LruSet.read, tApply, hs, List.find?_map]
      have hcomp : (tagMatch tag ∘ Prod.fst)
          = (fun p : CacheEntry × Nat => tagMatch tag p.1) := rfl
      rw [hcomp]
      cases hfind : ts.find? (fun p => tagMatch tag p.1) with
      | none => simp [hs]
      | some p =>
          simp only [Option.map_some', List.map_cons, List.filter_map]
          rfl
  | writeBack tag =>
      rw [LruSet.applyOp, LruSet.writeBack, tApply, hs, List.find?_map]
      have hcomp : (tagMatch tag ∘ Prod.fst)
          = (fun p : CacheEntry × Nat => tagMatch tag p.1) := rfl
      rw [hcomp]
      cases hfind : ts.find? (fun p => tagMatch tag p.1) with
      | none => simp [hs]
      | some p =>
          simp only [Option.map_some', List.map_cons, List.filter_map]
          rfl
  | insertMru e =>
      rw [LruSet.applyOp, LruSet.inserMru, tApply]
      have hlen : st.set.length = ts.length := by rw [hs, List.length_map]
      by_cases hfull : st.set.length < st.ways
      · rw [if_pos hfull, if_pos (by omega : ts.length < st.ways)]
        simp [hs]
      · rw [if_neg hfull, if_neg (by omega : ¬ ts.length < st.ways)]
        have hne : st.set ≠ [] := by
          intro hnil
          rw [hnil] at hlen hfull
          simp at hfull
          omega
        obtain ⟨lru, heq⟩ : ∃ a, st.set.getLast? = some a := by
          cases hg : st.set.getLast? with
          | none => exact absurd (List.getLast?_eq_none_iff.1 hg) hne
          | some a => exact ⟨a, rfl⟩
        rw [heq]
        simp only [List.map_cons]
        rw [hs, List.map_dropLast]


lemma tRun_fst (ops : List LruOp) : ∀ (st : LruSet) (clock : Nat)
    (ts : List (CacheEntry × Nat)), st.set = ts.map Prod.fst → 1 ≤ st.ways →
    (st.runOps ops).set = (tRun st.ways clock ts ops).1.map Prod.fst := by
  induction ops with
  | nil => exact fun st clock ts hs hw => hs
  | cons op ops ih =>
      intro st clock ts hs hw
      rw [LruSet.runOps, tRun]
      have h1 := tApply_fst st ts clock op hs hw
      have hw' : 1 ≤ (st.applyOp op).ways := by rw [applyOp_ways]; exact hw
      have h2 := ih (st.applyOp op) (clock + 1) (tApply st.ways clock ts op) h1 hw'
      rw [applyOp_ways] at h2
      exact h2

lemma cons_clock_sorted {ts ts' : List (CacheEntry × Nat)} {e : CacheEntry} {clock : Nat}
    (hsub : ts'.Sublist ts) (hsort : ts.Pairwise (fun p q => q.2 < p.2))
    (hbound : ∀ p ∈ ts, p.2 < clock) :
    ((e, clock) :: ts').Pairwise (fun p q => q.2 < p.2)
      ∧ ∀ p ∈ (e, clock) :: ts', p.2 < clock + 1 := by
  constructor
  · rw [List.pairwise_cons]
    exact ⟨fun q hq => hbound q (hsub.mem hq), hsort.sublist hsub⟩
  · intro p hp
    rcases List.mem_cons.1 hp with rfl | hp'
    · exact Nat.lt_succ_self clock
    · exact Nat.lt_succ_of_lt (hbound p (hsub.mem hp'))

lemma tApply_sorted (ways clock : Nat) (ts : List (CacheEntry × Nat)) (op : LruOp)
    (hsort : ts.Pairwise (fun p q => q.2 < p.2)) (hbound : ∀ p ∈ ts, p.2 < clock) :
    (tApply ways clock ts op).Pairwise (fun p q => q.2 < p.2)
      ∧ ∀ p ∈ tApply ways clock ts op, p.2 < clock + 1 := by
  cases op with
  | read tag =>
      rw [tApply]
      cases hfind : ts.find? (fun p => tagMatch tag p.1) with
      | none => exact ⟨hsort, fun p hp => Nat.lt_succ_of_lt (hbound p hp)⟩
      | some p => exact cons_clock_sorted (List.filter_sublist ts) hsort hbound
  | writeBack tag =>
      rw [tApply]
      cases hfind : ts.find? (fun p => tagMatch tag p.1) with
      | none => exact ⟨hsort, fun p hp => Nat.lt_succ_of_lt (hbound p hp)⟩
      | some p => exact cons_clock_sorted (List.filter_sublist ts) hsort hbound
  | insertMru e =>
      rw [tApply]
      by_cases hfull : ts.length < ways
      · rw [if_pos hfull]
        exact cons_clock_sorted (List.Sublist.refl ts) hsort hbound
      · rw [if_neg hfull]
        exact cons_clock_sorted (List.dropLast_sublist ts) hsort hbound

lemma tRun_sorted (ops : List LruOp) : ∀ (ways clock : Nat)
    (ts : List (CacheEntry × Nat)),
    ts.Pairwise (fun p q => q.2 < p.2) → (∀ p ∈ ts, p.2 < clock) →
    (tRun ways clock ts ops).1.Pairwise (fun p q => q.2 < p.2) := by
  induction ops with
  | nil => exact fun ways clock ts hsort hbound => hsort
  | cons op ops ih =>
      intro ways clock ts hsort hbound
      rw [tRun]
      have h := tApply_sorted ways clock ts op hsort hbound
      exact ih ways (clock + 1) _ h.1 h.2

lemma sorted_getLast_min {ts : List (CacheEntry × Nat)}
    (h : ts.Pairwise (fun p q => q.2 < p.2)) {p : CacheEntry × Nat}
    (hp : ts.getLast? = some p) : ∀ q ∈ ts, p.2 ≤ q.2 := by
  obtain ⟨ys, rfl⟩ := List.getLast?_eq_some_iff.1 hp
  intro q hq
  rcases List.mem_append.1 hq with hy | hy
  · exact le_of_lt ((List.pairwise_append.1 h).2.2 q hy p (List.mem_singleton_self p))
  · rw [List.mem_singleton.1 hy]


/-- C5: the LRU contract of `LruSet` under any sequence of `read`,
`write_back` and `insert_mru` calls, starting from a fresh set.  The
implementation list coincides with a timed reference model that stamps each
line with the clock of its last reference (insertion or hit), so:
(i) the list mirrors the timed model; (ii) `insert_mru` on a set under
capacity places the (by-value copied) line at the MRU head and returns a
blank entry; (iii) `insert_mru` on a full set evicts exactly the member
whose last-reference stamp is minimal — the least recently referenced line —
and puts the new line at the MRU head; (iv) a `read`/`write_back` hit
promotes the matching line to the MRU head (marking it dirty for
`write_back`). -/
theorem c5_lru_least_recently_referenced (c b s : Nat) (hs : s ≤ 63) (ops : List LruOp) :
    ((LruSet.new c b s).runOps ops).set = (tRun (2 ^ s) 0 [] ops).1.map Prod.fst
      ∧ (∀ e, ((LruSet.new c b s).runOps ops).set.length < 2 ^ s →
          ((LruSet.new c b s).runOps ops).inserMru e
            = (CacheEntry.blankEntry,
               { (LruSet.new c b s).runOps ops with
                 set := CacheEntry.copyCtor e :: ((LruSet.new c b s).runOps ops).set }))
      ∧ (∀ e, ¬ ((LruSet.new c b s).runOps ops).set.length < 2 ^ s →
          ∃ p, (tRun (2 ^ s) 0 [] ops).1.getLast? = some p
            ∧ (((LruSet.new c b s).runOps ops).inserMru e).1 = p.1
            ∧ (∀ q ∈ (tRun (2 ^ s) 0 [] ops).1, p.2 ≤ q.2)
            ∧ (((LruSet.new c b s).runOps ops).inserMru e).2.set
                = CacheEntry.copyCtor e :: ((LruSet.new c b s).runOps ops).set.dropLast)
      ∧ (∀ tag f, ((LruSet.new c b s).runOps ops).set.find? (tagMatch tag) = some f →
          (((LruSet.new c b s).runOps ops).read tag).2.set
              = CacheEntry.copyCtor f
                  :: ((LruSet.new c b s).runOps ops).set.filter
                      (fun x => !(x.getTag == f.getTag))
            ∧ (((LruSet.new c b s).runOps ops).writeBack tag).2.set
              = CacheEntry.copyCtor { f with dirty := true }
                  :: ((LruSet.new c b s).runOps ops).set.filter
                      (fun x => !(x.getTag == f.getTag))) := by
  have hwnew : (LruSet.new c b s).ways = 2 ^ s := by
    simp only [LruSet.new]
    exact shl_one_of_le63 hs
  have hw1 : 1 ≤ (LruSet.new c b s).ways := by
    rw [hwnew]
    exact Nat.one_le_two_pow
  have hways : ((LruSet.new c b s).runOps ops).ways = 2 ^ s := by
    rw [runOps_ways]
    exact hwnew
  have hcorr : ((LruSet.new c b s).runOps ops).set = (tRun (2 ^ s) 0 [] ops).1.map Prod.fst := by
    have h := tRun_fst ops (LruSet.new c b s) 0 [] rfl hw1
    rw [hwnew] at h
    exact h
  have hsorted := tRun_sorted ops (2 ^ s) 0 [] List.Pairwise.nil
    (by intro p hp; cases hp)
  refine ⟨hcorr, ?_, ?_, ?_⟩
  · intro e hlt
    rw [LruSet.inserMru, if_pos (show ((LruSet.new c b s).runOps ops).set.length
        < ((LruSet.new c b s).runOps ops).ways by rw [hways]; exact hlt)]
  · intro e hge
    have h2p : (1:Nat) ≤ 2 ^ s := Nat.one_le_two_pow
    have hlenpos : 1 ≤ ((LruSet.new c b s).runOps ops).set.length := by omega
    have hne : ((LruSet.new c b s).runOps ops).set ≠ [] := by
      intro hnil
      rw [hnil] at hlenpos
      simp at hlenpos
    obtain ⟨lru, heq⟩ : ∃ a, ((LruSet.new c b s).runOps ops).set.getLast? = some a := by
      cases hg : ((LruSet.new c b s).runOps ops).set.getLast? with
      | none => exact absurd (List.getLast?_eq_none_iff.1 hg) hne
      | some a => exact ⟨a, rfl⟩
    have hmap : ((tRun (2 ^ s) 0 [] ops).1.map Prod.fst).getLast? = some lru := by
      rw [← hcorr]
      exact heq
    rw [List.getLast?_map] at hmap
    obtain ⟨p, hpeq, hp1⟩ := Option.map_eq_some'.1 hmap
    have hnorm := runOps_normalized ops (LruSet.new c b s) (by intro x hx; cases hx)
    have hlru_mem : lru ∈ ((LruSet.new c b s).runOps ops).set :=
      List.mem_of_getLast?_eq_some heq
    have hlru_eq : CacheEntry.copyCtor lru = lru :=
      copyCtor_eq_self (hnorm lru hlru_mem).1 (hnorm lru hlru_mem).2
    refine ⟨p, hpeq, ?_, sorted_getLast_min hsorted hpeq, ?_⟩
    · have h1 : (((LruSet.new c b s).runOps ops).inserMru e).1
          = CacheEntry.copyCtor lru := by
        rw [LruSet.inserMru, if_neg (show ¬ ((LruSet.new c b s).runOps ops).set.length
            < ((LruSet.new c b s).runOps ops).ways by rw [hways]; exact hge), heq]
      rw [h1, hlru_eq]
      exact hp1.symm
    · rw [LruSet.inserMru, if_neg (show ¬ ((LruSet.new c b s).runOps ops).set.length
          < ((LruSet.new c b s).runOps ops).ways by rw [hways]; exact hge), heq]
  · intro tag f hfind
    constructor
    · rw [LruSet.read, hfind]
      rfl
    · rw [LruSet.writeBack, hfind]
      rfl

/-- C5 witness: the theorem applied at `c = 10, b = 5, s = 1` and a concrete
op sequence: fill the 2-way set with two lines, hit the first by `read`,
then a third `insert_mru` — by LRU it must evict the second line, the least
recently referenced. -/
theorem c5_lru_least_recently_referenced_witness :
    (1 ≤ 63
      ∧ ¬ ((LruSet.new 10 5 1).runOps
            [LruOp.insertMru (CacheEntry.init 0 false 10 5 1),
             LruOp.insertMru (CacheEntry.init 1024 false 10 5 1),
             LruOp.read ((CacheEntry.init 0 false 10 5 1).getTag)]).set.length < 2 ^ 1)
      ∧ ∃ p, (tRun (2 ^ 1) 0 []
            [LruOp.insertMru (CacheEntry.init 0 false 10 5 1),
             LruOp.insertMru (CacheEntry.init 1024 false 10 5 1),
             LruOp.read ((CacheEntry.init 0 false 10 5 1).getTag)]).1.getLast? = some p
          ∧ (((LruSet.new 10 5 1).runOps
                [LruOp.insertMru (CacheEntry.init 0 false 10 5 1),
                 LruOp.insertMru (CacheEntry.init 1024 false 10 5 1),
                 LruOp.read ((CacheEntry.init 0 false 10 5 1).getTag)]).inserMru
                (CacheEntry.init 2048 false 10 5 1)).1 = p.1
          ∧ (∀ q ∈ (tRun (2 ^ 1) 0 []
                [LruOp.insertMru (CacheEntry.init 0 false 10 5 1),
                 LruOp.insertMru (CacheEntry.init 1024 false 10 5 1),
                 LruOp.read ((CacheEntry.init 0 false 10 5 1).getTag)]).1, p.2 ≤ q.2)
          ∧ (((LruSet.new 10 5 1).runOps
                [LruOp.insertMru (CacheEntry.init 0 false 10 5 1),
                 LruOp.insertMru (CacheEntry.init 1024 false 10 5 1),
                 LruOp.read ((CacheEntry.init 0 false 10 5 1).getTag)]).inserMru
                (CacheEntry.init 2048 false 10 5 1)).2.set
              = CacheEntry.copyCtor (CacheEntry.init 2048 false 10 5 1)
                  :: ((LruSet.new 10 5 1).runOps
                      [LruOp.insertMru (CacheEntry.init 0 false 10 5 1),
                       LruOp.insertMru (CacheEntry.init 1024 false 10 5 1),
                       LruOp.read ((CacheEntry.init 0 false 10 5 1).getTag)]).set.dropLast :=
  ⟨⟨by norm_num, by decide⟩,
   (c5_lru_least_recently_referenced 10 5 1 (by norm_num)
      [LruOp.insertMru (CacheEntry.init 0 false 10 5 1),
       LruOp.insertMru (CacheEntry.init 1024 false 10 5 1),
       LruOp.read ((CacheEntry.init 0 false 10 5 1).getTag)]).2.2.1
     (CacheEntry.init 2048 false 10 5 1) (by decide)⟩

end CacheSim
